import Mathlib

/-!
Verification development for the `solana-tools` batch-orchestration library.

The TypeScript sources are embedded shallowly:

* JavaScript `number` values are modelled as rationals (`ℚ`); where the code's
  behaviour depends on IEEE-754 binary64 rounding we apply an explicit
  round-to-53-bit-significand function `fl53` (round to nearest, ties to even;
  the magnitudes manipulated by this code stay well inside the normal finite
  range, so overflow and subnormal behaviour never arise).
* JavaScript `BigInt(x)` is modelled by `jsBigInt : ℚ → Option ℤ`, `none`
  standing for the `RangeError` thrown on non-integral arguments.
* The RPC connection is modelled as a pure snapshot oracle (`Chain`): account
  lookups are functions from addresses to optional account states, and the
  `k`-th `sendAndConfirmTransaction` call of a run is answered by
  `Chain.submit k`.
* Associated-token-address derivation (`getAssociatedTokenAddressSync`) is an
  opaque pure function parameter `ataOf : mint → owner → ata`.
* `group`, whose `for (let i = 0; i < data.length; i += size)` loop need not
  terminate, is embedded with explicit fuel; `none` means the loop has not
  exited within the given fuel, and divergence is expressed as `none` for
  every fuel.
-/

set_option maxRecDepth 16000

namespace SolanaTools

/-- Opaque ledger addresses (public keys); `Keypair` signers are identified
with their public key. -/
abbrev Addr := Nat

/-- Errors thrown by the TypeScript code: `throw new Error(msg)` and the
`RangeError` raised by `BigInt` on a non-integral number. -/
inductive JsError where
  | thrown (msg : String)
  | rangeError
deriving DecidableEq

/-! ## IEEE-754 binary64 model over ℚ

All arithmetic below is built from `mkRat`, casts and integer operations, so
that every concrete run of the embedded program can be evaluated by `decide`.
-/

/-- Fuel-driven floor of the base-2 logarithm of a natural number
(`natLog2F n n` is exact for `n ≥ 1`). -/
def natLog2F : Nat → Nat → Nat
  | 0, _ => 0
  | f + 1, n => if n ≤ 1 then 0 else 1 + natLog2F f (n / 2)

/-- Floor of the base-2 logarithm of a natural number (0 at 0). -/
def natLog2 (n : Nat) : Nat := natLog2F n n

/-- Integer powers of two as rationals. -/
def pow2 (e : Int) : ℚ :=
  if 0 ≤ e then ((2 ^ e.toNat : ℕ) : ℚ) else mkRat 1 (2 ^ (-e).toNat)

/-- Exact product of two rationals (same value as `a * b`). -/
def qMul (a b : ℚ) : ℚ := mkRat (a.num * b.num) (a.den * b.den)

/-- Exact difference of two rationals (same value as `a - b`). -/
def qSub (a b : ℚ) : ℚ := mkRat (a.num * b.den - b.num * a.den) (a.den * b.den)

/-- Exact quotient of two rationals (same value as `a / b` for `b ≠ 0`). -/
def qDiv (a b : ℚ) : ℚ :=
  if b.num < 0 then mkRat (-(a.num * b.den)) (a.den * b.num.natAbs)
  else mkRat (a.num * b.den) (a.den * b.num.natAbs)

/-- Exact negation of a rational (same value as `-a`). -/
def qNeg (a : ℚ) : ℚ := mkRat (-a.num) a.den

/-- Floor of a rational as an integer (same value as `⌊a⌋`). -/
def qFloor (y : ℚ) : Int := Int.fdiv y.num y.den

/-- The rational one half. -/
def qHalf : ℚ := mkRat 1 2

/-- Floor of the base-2 logarithm of a positive rational (junk at `x ≤ 0`).
`natLog2` of numerator and denominator brackets the result to two candidates,
decided by one comparison. -/
def floorLog2 (x : ℚ) : Int :=
  let a : Int := natLog2 x.num.toNat
  let b : Int := natLog2 x.den
  if pow2 (a - b) ≤ x then a - b else a - b - 1

/-- Round a rational to an integer, round to nearest with ties to even. -/
def rnd (y : ℚ) : Int :=
  let n := qFloor y
  let r := qSub y ((n : ℤ) : ℚ)
  if r < qHalf then n
  else if qHalf < r then n + 1
  else if n % 2 = 0 then n else n + 1

/-- Round a positive rational to 53 significant bits
(round to nearest, ties to even). -/
def flPos (x : ℚ) : ℚ :=
  let e : Int := floorLog2 x - 52
  qMul ((rnd (qMul x (pow2 (-e))) : ℤ) : ℚ) (pow2 e)

/-- The IEEE-754 binary64 value nearest to a rational (normal range; the
magnitudes this code manipulates never overflow or go subnormal). -/
def fl53 (x : ℚ) : ℚ :=
  if x = 0 then 0 else if x < 0 then qNeg (flPos (qNeg x)) else flPos x

/-- JavaScript `a * b` on numbers: exact product, rounded to binary64. -/
def jsMul (a b : ℚ) : ℚ := fl53 (qMul a b)

/-- JavaScript `a / b` on numbers: exact quotient, rounded to binary64. -/
def jsDiv (a b : ℚ) : ℚ := fl53 (qDiv a b)

/-- JavaScript `10 ** d`: modelled as the binary64 value nearest to `10 ^ d`
(what every mainstream engine computes). -/
def jsPow10 (d : Nat) : ℚ := fl53 ((10 ^ d : ℕ) : ℚ)

/-- JavaScript `BigInt(x)` on a number: the integer itself when `x` is
integral, otherwise a `RangeError` (`none`). -/
def jsBigInt (x : ℚ) : Option Int := if x.den = 1 then some x.num else none

/-- `LAMPORTS_PER_SOL` from `@solana/web3.js` (10^9, exactly representable). -/
def LAMPORTS_PER_SOL : ℚ := 1000000000

/-- The fee-payer reserve threshold `0.001 * LAMPORTS_PER_SOL` as the code
computes it: the binary64 literal `0.001` times `10^9`, rounded. -/
def solReserve : ℚ := jsMul (fl53 (mkRat 1 1000)) LAMPORTS_PER_SOL

/-! ## The `group` chunker (src `utils`, also duplicated in the legacy index)

```ts
export function group<T>(data: T[], size: number): T[][] {
    const result = [];
    for (let i = 0; i < data.length; i += size) {
        result.push(data.slice(i, i + size));
    }
    return result;
}
```
-/

/-- JavaScript `Array.prototype.slice(start, end)` with its negative-index
clamping semantics. -/
def jsSlice {α : Type} (data : List α) (start stop : Int) : List α :=
  let len : Int := data.length
  let s : Int := if start < 0 then max (len + start) 0 else min start len
  let e : Int := if stop < 0 then max (len + stop) 0 else min stop len
  (data.take e.toNat).drop s.toNat

/-- The `for (let i = 0; i < data.length; i += size)` loop of `group`, with
explicit fuel; `none` means the loop has not exited within `fuel` iterations. -/
def groupLoop {α : Type} (data : List α) (size : Int) :
    Nat → Int → List (List α) → Option (List (List α))
  | 0, _, _ => none
  | fuel + 1, i, acc =>
    if i < (data.length : Int) then
      groupLoop data size fuel (i + size) (acc ++ [jsSlice data i (i + size)])
    else
      some acc

/-- `group(data, size)`: run the loop with canonical fuel `data.length + 1`,
which suffices for every positive `size` (each iteration advances `i` by at
least one). -/
def group {α : Type} (data : List α) (size : Int) : Option (List (List α)) :=
  groupLoop data size (data.length + 1) 0 []

/-- The loop of `group` exits for no amount of fuel (the TypeScript call never
returns). -/
def groupDiverges {α : Type} (data : List α) (size : Int) : Prop :=
  ∀ fuel, groupLoop data size fuel 0 [] = none

/-! ## The on-chain data model and the RPC oracle -/

/-- Result of `getAccountInfo` / `getMultipleAccountsInfo`: lamport balance
and owning program. -/
structure SolAccState where
  lamports : ℕ
  owner : Addr
deriving DecidableEq

/-- Parsed token-account state (`getMultipleParsedAccounts` /
`getParsedAccountInfo`): the raw base-unit balance (`tokenAmount.amount`, a
u64 rendered as a JSON string), the mint's decimals, the UI-scaled balance
(`tokenAmount.uiAmount`, a JSON number or null) and the account's lamports. -/
structure TokenAccState where
  amount : ℕ
  decimals : ℕ
  uiAmount : Option ℚ
  lamports : ℕ
deriving DecidableEq

/-- The part of `unpackMint` that this code reads. -/
structure MintState where
  mintAuthority : Option Addr
  decimals : ℕ
deriving DecidableEq

/-- Distinguished program ids (opaque, only compared for equality). -/
def TOKEN_PROGRAM_ID : Addr := 1

/-- The token-2022 program id (distinct from `TOKEN_PROGRAM_ID`). -/
def TOKEN_2022_PROGRAM_ID : Addr := 2

/-- A pure snapshot of the remote ledger plus a submission oracle: the `k`-th
`sendAndConfirmTransaction` call of a run receives `submit k` (a transaction
id on success, the thrown error on failure). -/
structure Chain where
  account : Addr → Option SolAccState
  parsedToken : Addr → Option TokenAccState
  mintData : Addr → MintState
  submit : ℕ → Except JsError ℕ

/-- `connection.getBalance`: 0 for an absent account. -/
def Chain.getBalance (ch : Chain) (a : Addr) : ℕ :=
  (ch.account a).elim 0 SolAccState.lamports

/-- The instructions this library assembles.  Transfer values are carried
exactly: BigInt-computed values are integers cast into ℚ, legacy
number-computed values are the rounded rationals the floats denote. -/
inductive Instr where
  | systemTransfer (source dest : Addr) (lamports : ℚ)
  | tokenTransfer (source dest owner : Addr) (value : ℚ)
  | createAta (payer ata owner mint : Addr)
  | closeAccount (account dest owner : Addr)
  | mintTo (mint dest authority : Addr) (value : ℤ)
deriving DecidableEq

/-- Whether an instruction is a create-associated-token-account instruction. -/
def Instr.isCreate : Instr → Bool
  | .createAta _ _ _ _ => true
  | _ => false

/-- The `{ instruction, signers, amount }` records pushed by the SOL planner
and by the fixed-amount token planner. -/
structure InstrRec where
  instruction : Instr
  signers : Addr
  amount : ℚ
deriving DecidableEq

/-- Records of `getAllTokenTransferInstructions` (transfer may be absent,
close always present, `amount` is the possibly-null `uiAmount`). -/
structure AllRec where
  instruction : Option Instr
  signers : Addr
  amount : Option ℚ
  closeInstruction : Instr
deriving DecidableEq

/-- Records of the legacy token planner (both instructions optional). -/
structure LegacyTokenRec where
  instruction : Option Instr
  closeInstruction : Option Instr
  signers : Addr
  amount : ℚ
deriving DecidableEq

deriving instance DecidableEq for Except

/-- One per-batch outcome: the assembled transaction, its signer list, and
the result of its `sendAndConfirmTransaction` call. -/
structure BatchOutcome where
  tx : List Instr
  signers : List Addr
  result : Except JsError ℕ
deriving DecidableEq

/-- Records returned by `queryMultipleTokenBalance`
(`{ address, balance, lamports }`). -/
structure QueryTokenRec where
  address : Addr
  balance : Option ℚ
  lamports : ℕ
deriving DecidableEq

/-- Entries produced by `getMultipleAtaInfo`. -/
structure AtaInfo where
  ata : Addr
  target : Addr
  ataExists : Bool
deriving DecidableEq

/-! ## The three batch-execution loop shapes -/

/-- Batch loop whose body wraps `sendAndConfirmTransaction` in `try/catch`:
every batch is submitted and yields an outcome; a failure is recorded (the
printed warning) and the loop continues. -/
def runCaughtLoop {α : Type} (submit : ℕ → Except JsError ℕ) (build : α → List Instr)
    (signersOf : α → List Addr) : ℕ → List α → List BatchOutcome
  | _, [] => []
  | k, g :: rest =>
    ⟨build g, signersOf g, submit k⟩ :: runCaughtLoop submit build signersOf (k + 1) rest

/-- Caught batch loop that additionally threads the one-element
`ataInstruction` array: on the first iteration with a pending instruction the
loop `pop`s it into the transaction, leaving the array empty thereafter. -/
def runAtaLoop {α : Type} (submit : ℕ → Except JsError ℕ) (build : α → List Instr)
    (signersOf : α → List Addr) : ℕ → List Instr → List α → List BatchOutcome
  | _, _, [] => []
  | k, pending, g :: rest =>
    let popped : List Instr := if 0 < pending.length then pending.getLast?.toList else []
    let pending' : List Instr := if 0 < pending.length then pending.dropLast else pending
    ⟨popped ++ build g, signersOf g, submit k⟩ ::
      runAtaLoop submit build signersOf (k + 1) pending' rest

/-- Batch loop with no `try/catch` (the legacy `collect`): the first
submission failure propagates out, discarding the remaining batches. -/
def runUncaughtLoop {α : Type} (submit : ℕ → Except JsError ℕ) (build : α → List Instr)
    (signersOf : α → List Addr) : ℕ → List α → List BatchOutcome × Option JsError
  | _, [] => ([], none)
  | k, g :: rest =>
    match submit k with
    | .error e => ([], some e)
    | .ok t =>
      let r := runUncaughtLoop submit build signersOf (k + 1) rest
      (⟨build g, signersOf g, .ok t⟩ :: r.1, r.2)

/-! ## `src/sol/index.ts` -/

namespace Sol

/-- `getTransferInstructions` of `src/sol/index.ts`: probe the sources'
lamports and emit one transfer record per account with sufficient balance
(`amount == 0` means sweep the full balance — that is how `collectAllSOL`
calls it). -/
def getTransferInstructions (ch : Chain) (accounts : List Addr) (payer : Addr)
    (amount : ℚ) : List InstrRec :=
  accounts.foldl (fun res acct =>
    match ch.account acct with
    | none => res
    | some item =>
      if item.lamports = 0 then res
      else
        let realAmount : ℚ :=
          if amount = 0 then (item.lamports : ℚ) else jsMul amount LAMPORTS_PER_SOL
        if (item.lamports : ℚ) < realAmount then res
        else res ++ [⟨.systemTransfer acct payer realAmount, acct,
          jsDiv realAmount LAMPORTS_PER_SOL⟩]) []

/-- The probe-and-plan phase shared by `collectSOL` (positive `amount`) and
`collectAllSOL` (`amount = 0`): probe sources in groups of 20 and concatenate
the planned records. -/
def collectSOLPlan (ch : Chain) (payer : Addr) (sources : List Addr) (amount : ℚ) :
    List InstrRec :=
  ((group sources 20).getD []).foldl (fun acc accounts =>
    let instructions := getTransferInstructions ch accounts payer amount
    if 0 < instructions.length then acc ++ instructions else acc) []

/-- The transaction batches of `collectSOL` / `collectAllSOL`
(planned records grouped by 20). -/
def collectSOLBatches (ch : Chain) (payer : Addr) (sources : List Addr) (amount : ℚ) :
    List (List InstrRec) :=
  (group (collectSOLPlan ch payer sources amount) 20).getD []

/-- `collectSOL`: precondition checks, planning, then a caught batch loop. -/
def collectSOL (ch : Chain) (payer : Addr) (sources : List Addr) (amount : ℚ) :
    List BatchOutcome × Option JsError :=
  if amount ≤ 0 then ([], some (.thrown "amount must be greater than 0"))
  else if (ch.getBalance payer : ℚ) < solReserve then
    ([], some (.thrown "payer balance is not enough"))
  else
    (runCaughtLoop ch.submit (fun g => g.map InstrRec.instruction)
      (fun g => payer :: g.map InstrRec.signers) 0
      (collectSOLBatches ch payer sources amount), none)

/-- `collectAllSOL`: like `collectSOL` without the amount precondition,
planning with `amount = 0` (full-balance sweep). -/
def collectAllSOL (ch : Chain) (payer : Addr) (sources : List Addr) :
    List BatchOutcome × Option JsError :=
  if (ch.getBalance payer : ℚ) < solReserve then
    ([], some (.thrown "payer balance is not enough"))
  else
    (runCaughtLoop ch.submit (fun g => g.map InstrRec.instruction)
      (fun g => payer :: g.map InstrRec.signers) 0
      (collectSOLBatches ch payer sources 0), none)

/-- `allocationSOL`: balance precondition, then one transfer per target in
caught batches of 20. -/
def allocationSOL (ch : Chain) (payer : Addr) (targets : List Addr) (amount : ℚ) :
    List BatchOutcome × Option JsError :=
  if ch.getBalance payer = 0 ∨
      (ch.getBalance payer : ℚ) < jsMul (jsMul amount (targets.length : ℚ)) LAMPORTS_PER_SOL
  then ([], some (.thrown "payer balance is not enough"))
  else
    (runCaughtLoop ch.submit
      (fun accounts => accounts.map fun a =>
        .systemTransfer payer a (jsMul amount LAMPORTS_PER_SOL))
      (fun _ => [payer]) 0 ((group targets 20).getD []), none)

end Sol

/-! ## The token module (`src/token`) -/

namespace Token

/-- `getMultipleAtaInfo`: derive each target's associated token address and
probe existence in groups of 10. -/
def getMultipleAtaInfo (ch : Chain) (ataOf : Addr → Addr → Addr) (mint : Addr)
    (targets : List Addr) : List AtaInfo :=
  let targetAndAta := targets.map fun t => (ataOf mint t, t)
  ((group targetAndAta 10).getD []).foldl (fun res tokenAccounts =>
    res ++ tokenAccounts.map fun p => ⟨p.1, p.2, (ch.account p.1).isSome⟩) []

/-- The scaled mint amount `BigInt(10 ** decimals) * BigInt(amount)` of
`batchMintTo` (`RangeError` when `amount` is not integral). -/
def mintScaled (decimals : ℕ) (amount : ℚ) : Except JsError ℤ :=
  match jsBigInt (jsPow10 decimals) with
  | none => .error .rangeError
  | some b =>
    match jsBigInt amount with
    | none => .error .rangeError
    | some a => .ok (b * a)

/-- Build one `batchMintTo` transaction: per target, a create-ATA instruction
when the ATA is absent, then the mint-to instruction. -/
def buildMintTx (payer mint : Addr) (decimals : ℕ) (amount : ℚ) :
    List AtaInfo → Except JsError (List Instr)
  | [] => .ok []
  | a :: rest => do
    let v ← mintScaled decimals amount
    let tx ← buildMintTx payer mint decimals amount rest
    .ok ((if a.ataExists then [] else [Instr.createAta payer a.ata a.target mint]) ++
      [Instr.mintTo mint a.ata payer v] ++ tx)

/-- The `batchMintTo` batch loop: transaction building is outside the
`try/catch` (a `BigInt` failure aborts the run), submission is caught. -/
def batchMintToLoop (ch : Chain) (payer mint : Addr) (decimals : ℕ) (amount : ℚ) :
    ℕ → List (List AtaInfo) → List BatchOutcome × Option JsError
  | _, [] => ([], none)
  | k, g :: rest =>
    match buildMintTx payer mint decimals amount g with
    | .error e => ([], some e)
    | .ok tx =>
      let r := batchMintToLoop ch payer mint decimals amount (k + 1) rest
      (⟨tx, [payer], ch.submit k⟩ :: r.1, r.2)

/-- `batchMintTo`: `getMintInfo` checks, ATA probe, then caught batches of 5. -/
def batchMintTo (ch : Chain) (ataOf : Addr → Addr → Addr) (payer mint : Addr)
    (targets : List Addr) (amount : ℚ) : List BatchOutcome × Option JsError :=
  match ch.account mint with
  | none => ([], some (.thrown "Invalid mint address"))
  | some accountInfo =>
    if accountInfo.owner = TOKEN_2022_PROGRAM_ID then
      ([], some (.thrown "Unsupported token 2022"))
    else if accountInfo.owner ≠ TOKEN_PROGRAM_ID then
      ([], some (.thrown "Invalid mint owner"))
    else if (ch.mintData mint).mintAuthority ≠ some payer then
      ([], some (.thrown "Invalid mint authority"))
    else
      batchMintToLoop ch payer mint (ch.mintData mint).decimals amount 0
        ((group (getMultipleAtaInfo ch ataOf mint targets) 5).getD [])

/-- `queryMultipleTokenBalance`: probe the derived token accounts in groups
of 50.  The source indexes the full `accounts` array with the chunk-local
index `i` (it does not shadow `accounts` with the chunk as the SOL variant
does); the embedding preserves that indexing. -/
def queryMultipleTokenBalance (ch : Chain) (ataOf : Addr → Addr → Addr) (mint : Addr)
    (accounts : List Addr) : List QueryTokenRec :=
  let accountGroups := (group (accounts.map (ataOf mint)) 50).getD []
  accountGroups.foldl (fun res tokenAccounts =>
    res ++ (List.range tokenAccounts.length).map fun i =>
      match ch.parsedToken (tokenAccounts.getD i 0) with
      | none => ⟨accounts.getD i 0, some 0, 0⟩
      | some tok => ⟨accounts.getD i 0, tok.uiAmount, tok.lamports⟩) []

/-- The scaled transfer amount
`BigInt(transferAmount) * BigInt(10 ** tokenAmount.decimals)` of the
fixed-amount token planner (`RangeError` when `transferAmount` is not
integral). -/
def fixedScaled (transferAmount : ℚ) (decimals : ℕ) : Except JsError ℤ :=
  match jsBigInt transferAmount with
  | none => .error .rangeError
  | some a =>
    match jsBigInt (jsPow10 decimals) with
    | none => .error .rangeError
    | some b => .ok (a * b)

/-- `getTokenTransferInstructions` (fixed amount): skip absent accounts and
accounts whose UI balance is below `transferAmount`; qualifying accounts get
one transfer record whose value is the BigInt-scaled amount. -/
def getTokenTransferInstructions (ch : Chain) (accounts : List (Addr × Addr))
    (targetAta : Addr) (transferAmount : ℚ) : Except JsError (List InstrRec) :=
  List.foldlM (fun res sa =>
    match ch.parsedToken sa.2 with
    | none => .ok res
    | some tok =>
      if (tok.uiAmount.getD 0) < transferAmount then .ok res
      else do
        let amount ← fixedScaled transferAmount tok.decimals
        .ok (res ++ [⟨.tokenTransfer sa.2 targetAta sa.1 ((amount : ℤ) : ℚ), sa.1,
          transferAmount⟩])) [] accounts

/-- The per-account decision of the fixed-amount token planner when `BigInt`
does not throw (used to characterise `getTokenTransferInstructions` as a
`filterMap`). -/
def planFixedOne (ch : Chain) (targetAta : Addr) (transferAmount : ℚ)
    (sa : Addr × Addr) : Option InstrRec :=
  match ch.parsedToken sa.2 with
  | none => none
  | some tok =>
    if (tok.uiAmount.getD 0) < transferAmount then none
    else
      match fixedScaled transferAmount tok.decimals with
      | .error _ => none
      | .ok amount =>
        some ⟨.tokenTransfer sa.2 targetAta sa.1 ((amount : ℤ) : ℚ), sa.1, transferAmount⟩

/-- `getAllTokenTransferInstructions`: every existing account yields a record
with a close instruction; the transfer instruction (full raw balance) is
present exactly when the raw balance is positive. -/
def getAllTokenTransferInstructions (ch : Chain) (accounts : List (Addr × Addr))
    (targetAta : Addr) : List AllRec :=
  accounts.foldl (fun res sa =>
    match ch.parsedToken sa.2 with
    | none => res
    | some tok =>
      let amount : ℤ := (tok.amount : ℤ)
      let transferInstruction : Option Instr :=
        if 0 < amount then some (.tokenTransfer sa.2 targetAta sa.1 (amount : ℚ)) else none
      res ++ [⟨transferInstruction, sa.1, tok.uiAmount, .closeAccount sa.2 sa.1 sa.1⟩]) []

/-- Probe-and-plan phase of `collectToken`: sources (with derived ATAs) in
groups of 50, planned records concatenated; a `BigInt` failure aborts. -/
def collectTokenPlan (ch : Chain) (ataOf : Addr → Addr → Addr) (mint : Addr)
    (sources : List Addr) (targetAta : Addr) (amount : ℚ) :
    Except JsError (List InstrRec) :=
  List.foldlM (fun acc accounts => do
    let instructions ← getTokenTransferInstructions ch accounts targetAta amount
    .ok (if 0 < instructions.length then acc ++ instructions else acc)) []
    ((group (sources.map fun s => (s, ataOf mint s)) 50).getD [])

/-- `collectToken`: precondition checks, planning, the pending create-ATA
instruction when the destination ATA is absent, then a caught ATA batch loop
over groups of 10. -/
def collectToken (ch : Chain) (ataOf : Addr → Addr → Addr) (mint payer : Addr)
    (sources : List Addr) (target : Addr) (amount : ℚ) :
    List BatchOutcome × Option JsError :=
  if amount ≤ 0 then ([], some (.thrown "amount must be greater than 0"))
  else if (ch.getBalance payer : ℚ) < solReserve then
    ([], some (.thrown "payer balance is not enough"))
  else
    match collectTokenPlan ch ataOf mint sources (ataOf mint target) amount with
    | .error e => ([], some e)
    | .ok instructionAndSigners =>
      (runAtaLoop ch.submit (fun g => g.map InstrRec.instruction)
        (fun g => payer :: g.map InstrRec.signers) 0
        (if ch.parsedToken (ataOf mint target) = none then
          [.createAta payer (ataOf mint target) target mint]
        else [])
        ((group instructionAndSigners 10).getD []), none)

/-- Probe-and-plan phase of `collectAllTokenAndCloseAccount`. -/
def collectAllTokenPlan (ch : Chain) (ataOf : Addr → Addr → Addr) (mint : Addr)
    (sources : List Addr) (targetAta : Addr) : List AllRec :=
  ((group (sources.map fun s => (s, ataOf mint s)) 50).getD []).foldl
    (fun acc accounts =>
      let instructions := getAllTokenTransferInstructions ch accounts targetAta
      if 0 < instructions.length then acc ++ instructions else acc) []

/-- `collectAllTokenAndCloseAccount`: balance precondition, planning, pending
create-ATA instruction, then a caught ATA batch loop over groups of 5
(transfers first, then the close instructions). -/
def collectAllTokenAndCloseAccount (ch : Chain) (ataOf : Addr → Addr → Addr)
    (mint payer : Addr) (sources : List Addr) (target : Addr) :
    List BatchOutcome × Option JsError :=
  if (ch.getBalance payer : ℚ) < solReserve then
    ([], some (.thrown "payer balance is not enough"))
  else
    (runAtaLoop ch.submit
      (fun g => g.filterMap AllRec.instruction ++ g.map AllRec.closeInstruction)
      (fun g => payer :: g.map AllRec.signers) 0
      (if ch.parsedToken (ataOf mint target) = none then
        [.createAta payer (ataOf mint target) target mint]
      else [])
      ((group (collectAllTokenPlan ch ataOf mint sources (ataOf mint target)) 5).getD []),
      none)

end Token

/-! ## The legacy index module (`part_002` of the sources) -/

namespace Legacy

/-- Legacy `getTransferInstructions`: threshold `1` lamport when sweeping
(`amount` undefined), otherwise the UI amount scaled to lamports in
floating-point. -/
def getTransferInstructions (ch : Chain) (accounts : List Addr) (payer : Addr)
    (amount : Option ℚ) : List InstrRec :=
  let limitAmount : ℚ := match amount with
    | none => 1
    | some a => jsMul a LAMPORTS_PER_SOL
  accounts.foldl (fun res acct =>
    match ch.account acct with
    | none => res
    | some item =>
      if (item.lamports : ℚ) < limitAmount then res
      else
        let realAmount : ℚ := match amount with
          | none => (item.lamports : ℚ)
          | some a => jsMul a LAMPORTS_PER_SOL
        res ++ [⟨.systemTransfer acct payer realAmount, acct,
          jsDiv realAmount LAMPORTS_PER_SOL⟩]) []

/-- Probe-and-plan phase of the legacy `collect` (groups of 20). -/
def collectPlan (ch : Chain) (payer : Addr) (sources : List Addr)
    (amount : Option ℚ) : List InstrRec :=
  ((group sources 20).getD []).foldl (fun acc accounts =>
    let instructions := getTransferInstructions ch accounts payer amount
    if 0 < instructions.length then acc ++ instructions else acc) []

/-- The transaction batches of the legacy `collect` (records grouped by 20). -/
def collectBatches (ch : Chain) (payer : Addr) (sources : List Addr)
    (amount : Option ℚ) : List (List InstrRec) :=
  (group (collectPlan ch payer sources amount) 20).getD []

/-- The legacy `collect`: same preconditions as `collectSOL`, but the batch
loop has no `try/catch` — the first submission failure propagates. -/
def collect (ch : Chain) (payer : Addr) (sources : List Addr) (amount : Option ℚ) :
    List BatchOutcome × Option JsError :=
  if amount.elim false (fun a => decide (a ≤ 0)) then
    ([], some (.thrown "amount must be greater than 0"))
  else if (ch.getBalance payer : ℚ) < solReserve then
    ([], some (.thrown "payer balance is not enough"))
  else
    runUncaughtLoop ch.submit (fun g => g.map InstrRec.instruction)
      (fun g => payer :: g.map InstrRec.signers) 0
      (collectBatches ch payer sources amount)

/-- The scaled transfer amount `amount * (10 ** decimals)` of the legacy
token planner — a floating-point multiplication, not BigInt arithmetic. -/
def scale (amount : ℚ) (decimals : ℕ) : ℚ := jsMul amount (jsPow10 decimals)

/-- Legacy `getTokenTransferInstructions`.  The skip condition compares the
UI-scaled balance against the account's own raw balance
(`uiAmount < tokenAmount.amount`) — preserved as in the source; a null
`uiAmount` coerces to 0 in that comparison. -/
def getTokenTransferInstructions (ch : Chain) (accounts : List (Addr × Addr))
    (targetAta : Addr) (amount : Option ℚ) (closeAta : Bool) : List LegacyTokenRec :=
  accounts.foldl (fun res sa =>
    match ch.parsedToken sa.2 with
    | none => res
    | some tok =>
      if amount.isSome ∧ (tok.uiAmount.getD 0) < (tok.amount : ℚ) then res
      else
        let realAmount : ℚ := match amount with
          | none => (tok.amount : ℚ)
          | some a => scale a tok.decimals
        let transferInstruction : Option Instr :=
          if 0 < tok.amount then some (.tokenTransfer sa.2 targetAta sa.1 realAmount)
          else none
        let closeInstruction : Option Instr :=
          if closeAta then some (.closeAccount sa.2 sa.1 sa.1) else none
        if transferInstruction = none ∧ closeInstruction = none then res
        else res ++ [⟨transferInstruction, closeInstruction, sa.1,
          jsDiv realAmount (jsPow10 tok.decimals)⟩]) []

end Legacy

/-! ## Per-account planning decisions (the loop bodies, as functions) -/

/-- Per-account decision of `Sol.getTransferInstructions`. -/
def Sol.planTransferOne (ch : Chain) (payer : Addr) (amount : ℚ) (acct : Addr) :
    Option InstrRec :=
  match ch.account acct with
  | none => none
  | some item =>
    if item.lamports = 0 then none
    else
      let realAmount : ℚ :=
        if amount = 0 then (item.lamports : ℚ) else jsMul amount LAMPORTS_PER_SOL
      if (item.lamports : ℚ) < realAmount then none
      else some ⟨.systemTransfer acct payer realAmount, acct,
        jsDiv realAmount LAMPORTS_PER_SOL⟩

/-- Per-account decision of `Token.getAllTokenTransferInstructions`. -/
def Token.planAllOne (ch : Chain) (targetAta : Addr) (sa : Addr × Addr) :
    Option AllRec :=
  match ch.parsedToken sa.2 with
  | none => none
  | some tok =>
    some ⟨if 0 < ((tok.amount : ℕ) : ℤ) then
        some (.tokenTransfer sa.2 targetAta sa.1 (((tok.amount : ℕ) : ℤ) : ℚ))
      else none,
      sa.1, tok.uiAmount, .closeAccount sa.2 sa.1 sa.1⟩

/-- Per-account decision of the legacy `getTransferInstructions`. -/
def Legacy.planTransferOne (ch : Chain) (payer : Addr) (amount : Option ℚ)
    (acct : Addr) : Option InstrRec :=
  let limitAmount : ℚ := match amount with
    | none => 1
    | some a => jsMul a LAMPORTS_PER_SOL
  match ch.account acct with
  | none => none
  | some item =>
    if (item.lamports : ℚ) < limitAmount then none
    else
      let realAmount : ℚ := match amount with
        | none => (item.lamports : ℚ)
        | some a => jsMul a LAMPORTS_PER_SOL
      some ⟨.systemTransfer acct payer realAmount, acct,
        jsDiv realAmount LAMPORTS_PER_SOL⟩

/-- Per-account decision of the legacy `getTokenTransferInstructions`. -/
def Legacy.planTokenOne (ch : Chain) (targetAta : Addr) (amount : Option ℚ)
    (closeAta : Bool) (sa : Addr × Addr) : Option LegacyTokenRec :=
  match ch.parsedToken sa.2 with
  | none => none
  | some tok =>
    if amount.isSome ∧ (tok.uiAmount.getD 0) < (tok.amount : ℚ) then none
    else
      let realAmount : ℚ := match amount with
        | none => (tok.amount : ℚ)
        | some a => Legacy.scale a tok.decimals
      let transferInstruction : Option Instr :=
        if 0 < tok.amount then some (.tokenTransfer sa.2 targetAta sa.1 realAmount)
        else none
      let closeInstruction : Option Instr :=
        if closeAta then some (.closeAccount sa.2 sa.1 sa.1) else none
      if transferInstruction = none ∧ closeInstruction = none then none
      else some ⟨transferInstruction, closeInstruction, sa.1,
        jsDiv realAmount (jsPow10 tok.decimals)⟩

/-- An account of the fixed-amount token planner that passes the threshold
comparison (it exists on chain and its UI balance is not below the requested
amount). -/
def Token.qualifies (ch : Chain) (amount : ℚ) (sa : Addr × Addr) : Prop :=
  ∃ tok, ch.parsedToken sa.2 = some tok ∧ ¬ ((tok.uiAmount.getD 0) < amount)

/-- The transaction batches `collectToken` submits (planned records grouped
by 10), as a standalone definition. -/
def Token.collectTokenBatches (ch : Chain) (ataOf : Addr → Addr → Addr)
    (mint : Addr) (sources : List Addr) (target : Addr) (amount : ℚ) :
    List (List InstrRec) :=
  (group ((sources.map fun s => (s, ataOf mint s)).filterMap
    (Token.planFixedOne ch (ataOf mint target) amount)) 10).getD []

/-- The transaction batches `collectAllTokenAndCloseAccount` submits (planned
records grouped by 5). -/
def Token.collectAllTokenBatches (ch : Chain) (ataOf : Addr → Addr → Addr)
    (mint : Addr) (sources : List Addr) (target : Addr) : List (List AllRec) :=
  (group ((sources.map fun s => (s, ataOf mint s)).filterMap
    (Token.planAllOne ch (ataOf mint target))) 5).getD []

/-- The transaction batches `batchMintTo` submits (ATA infos grouped by 5). -/
def Token.batchMintBatches (ch : Chain) (ataOf : Addr → Addr → Addr)
    (mint : Addr) (targets : List Addr) : List (List AtaInfo) :=
  (group (Token.getMultipleAtaInfo ch ataOf mint targets) 5).getD []

/-- Whether a batch outcome's transaction contains a create-ATA instruction. -/
def txHasCreate (o : BatchOutcome) : Bool := o.tx.any Instr.isCreate

/-- How many of a run's transactions contain a create-ATA instruction. -/
def countCreate (outs : List BatchOutcome) : ℕ := (outs.filter txHasCreate).length

/-! ## Concrete fixtures used by witnesses and counterexamples -/

/-- A simple injective ATA derivation for fixtures. -/
def fixAtaOf (m o : Addr) : Addr := 1000 + m * 100 + o

/-- Fixture chain for the token-balance query claim: the token accounts of
fixture addresses 0 and 50 (ATAs 1300 and 1350 under mint 3) hold different
balances (UI 7 and UI 9). -/
def chC1 : Chain where
  account := fun _ => none
  parsedToken := fun a =>
    if a = 1300 then some ⟨700, 2, some 7, 11⟩
    else if a = 1350 then some ⟨900, 2, some 9, 22⟩
    else none
  mintData := fun _ => ⟨none, 0⟩
  submit := fun _ => .ok 0

/-- Fixture chain for the fixed-amount planner claims: one source token
account (address 10) with raw balance 500, decimals 2, UI balance 5. -/
def chC2 : Chain where
  account := fun _ => none
  parsedToken := fun a => if a = 10 then some ⟨500, 2, some 5, 11⟩ else none
  mintData := fun _ => ⟨none, 0⟩
  submit := fun _ => .ok 0

/-- Fixture chain for the legacy batch-failure counterexample: 41 funded
sources (addresses 0–40), a funded fee payer at address 100, and a submission
oracle whose second call (index 1) fails. -/
def chC3 : Chain where
  account := fun a =>
    if a < 60 then some ⟨3000000000, 0⟩
    else if a = 100 then some ⟨2000000, 0⟩
    else none
  parsedToken := fun _ => none
  mintData := fun _ => ⟨none, 0⟩
  submit := fun k => if k = 1 then .error (.thrown "boom") else .ok (100 + k)

/-- Fixture chain for witnesses: fee payer 7 richly funded, source 1 funded
with SOL and a token sub-account (ATA 1301 under mint 3: raw 500, decimals 2,
UI 5), a valid mint at address 3 whose authority is the payer, and an absent
destination ATA (1309). -/
def chW : Chain where
  account := fun a =>
    if a = 7 then some ⟨10000000000, 0⟩
    else if a = 1 then some ⟨5000000000, 0⟩
    else if a = 3 then some ⟨1461600, TOKEN_PROGRAM_ID⟩
    else none
  parsedToken := fun a => if a = 1301 then some ⟨500, 2, some 5, 2039280⟩ else none
  mintData := fun m => if m = 3 then ⟨some 7, 2⟩ else ⟨none, 0⟩
  submit := fun k => .ok (500 + k)

/-- Variant of `chW` for the All-policy witness: source 1's sub-account has
raw balance 0, source 2's has raw balance 500. -/
def chW0 : Chain where
  account := fun a => if a = 7 then some ⟨10000000000, 0⟩ else none
  parsedToken := fun a =>
    if a = 1301 then some ⟨0, 2, some 0, 2039280⟩
    else if a = 1302 then some ⟨500, 2, some 5, 2039280⟩
    else none
  mintData := fun _ => ⟨none, 0⟩
  submit := fun k => .ok (500 + k)

/-! ## Lemmas about `group` -/

theorem jsSlice_nat {α : Type} (data : List α) (i j : ℕ) :
    jsSlice data (i : ℤ) (j : ℤ) = (data.take j).drop i := by
  have hi : ¬ ((i : ℤ) < 0) := by omega
  have hj : ¬ ((j : ℤ) < 0) := by omega
  simp only [jsSlice, if_neg hi, if_neg hj]
  have hminj : (min (j : ℤ) ((data.length : ℕ) : ℤ)).toNat = min j data.length := by omega
  have hmini : (min (i : ℤ) ((data.length : ℕ) : ℤ)).toNat = min i data.length := by omega
  rw [hminj, hmini]
  have h1 : data.take (min j data.length) = data.take j := by
    rcases le_total j data.length with h | h
    · rw [min_eq_left h]
    · rw [min_eq_right h, List.take_length, List.take_of_length_le h]
  rw [h1]
  have hlen : (data.take j).length ≤ data.length := by
    rw [List.length_take]; omega
  rcases le_total i data.length with h | h
  · rw [min_eq_left h]
  · rw [min_eq_right h, List.drop_eq_nil_of_le hlen,
      List.drop_eq_nil_of_le (le_trans hlen h)]

theorem groupLoop_spec {α : Type} (data : List α) (size : ℕ) (hs : 0 < size) :
    ∀ (fuel : ℕ) (i : ℕ) (acc : List (List α)), data.length - i < fuel →
    ∃ out, groupLoop data (size : ℤ) fuel (i : ℤ) acc = some (acc ++ out) ∧
      out.flatten = data.drop i ∧
      (∀ c ∈ out, c ≠ [] ∧ c.length ≤ size) ∧
      (∀ c ∈ out.dropLast, c.length = size) := by
  intro fuel
  induction fuel with
  | zero => intro i acc h; omega
  | succ fuel ih =>
    intro i acc h
    by_cases hlt : (i : ℤ) < (data.length : ℤ)
    · have hilt : i < data.length := by exact_mod_cast hlt
      have hcast : (i : ℤ) + (size : ℤ) = ((i + size : ℕ) : ℤ) := by push_cast; ring
      have hslice : jsSlice data (i : ℤ) ((i : ℤ) + (size : ℤ)) =
          (data.drop i).take size := by
        rw [hcast, jsSlice_nat, List.drop_take, Nat.add_sub_cancel_left]
      have hrec : data.length - (i + size) < fuel := by omega
      obtain ⟨out, heq, hjoin, hmem, hlast⟩ := ih (i + size) (acc ++ [(data.drop i).take size]) hrec
      have hchunkne : (data.drop i).take size ≠ [] := by
        have hne : data.drop i ≠ [] := by
          intro hnil
          have := List.drop_eq_nil_iff.mp hnil
          omega
        intro hnil
        rcases List.take_eq_nil_iff.mp hnil with h0 | h0
        · omega
        · exact hne h0
      refine ⟨(data.drop i).take size :: out, ?_, ?_, ?_, ?_⟩
      · rw [groupLoop, if_pos hlt, hslice, hcast, heq]
        simp
      · have hd : data.drop (i + size) = (data.drop i).drop size := by
          rw [List.drop_drop]
          try rw [Nat.add_comm]
        rw [List.flatten_cons, hjoin, hd, List.take_append_drop]
      · intro c hc
        rcases List.mem_cons.mp hc with rfl | hc
        · refine ⟨hchunkne, ?_⟩
          simp
        · exact hmem c hc
      · intro c hc
        cases out with
        | nil => simp at hc
        | cons o os =>
          have hlen : ((data.drop i).take size).length = size := by
            have hone : o ≠ [] := (hmem o (by simp)).1
            have hjoinne : (o :: os).flatten ≠ [] := by
              rw [List.flatten_cons]
              intro hnil
              exact hone (List.append_eq_nil.mp hnil).1
            rw [hjoin] at hjoinne
            have hlt2 : i + size < data.length := by
              by_contra hge
              exact hjoinne (List.drop_eq_nil_of_le (by omega))
            rw [List.length_take, List.length_drop]
            omega
          rw [List.dropLast_cons₂] at hc
          rcases List.mem_cons.mp hc with rfl | hc
          · exact hlen
          · exact hlast c hc
    · have hge : data.length ≤ i := by omega
      refine ⟨[], ?_, ?_, ?_, ?_⟩
      · rw [groupLoop, if_neg hlt, List.append_nil]
      · rw [List.flatten_nil, List.drop_eq_nil_of_le hge]
      · intro c hc; simp at hc
      · intro c hc; simp at hc

theorem groupLoop_none {α : Type} (data : List α) (size : ℤ) (hsz : size ≤ 0)
    (hd : data ≠ []) :
    ∀ (fuel : ℕ) (i : ℤ), i ≤ 0 → ∀ acc, groupLoop data size fuel i acc = none := by
  intro fuel
  induction fuel with
  | zero => intro i _ acc; rfl
  | succ fuel ih =>
    intro i hi acc
    have hlen : 0 < data.length := List.length_pos.mpr hd
    have hlt : i < (data.length : ℤ) := by
      have : (0 : ℤ) < (data.length : ℤ) := by exact_mod_cast hlen
      omega
    rw [groupLoop, if_pos hlt]
    exact ih (i + size) (by omega) _

theorem group_nil_eq {α : Type} (size : ℤ) : group ([] : List α) size = some [] := by
  simp [group, groupLoop]

theorem group_spec {α : Type} (data : List α) (size : ℕ) (hs : 0 < size) :
    ∃ out, group data (size : ℤ) = some out ∧ out.flatten = data ∧
      (∀ c ∈ out, c ≠ [] ∧ c.length ≤ size) ∧
      (∀ c ∈ out.dropLast, c.length = size) := by
  obtain ⟨out, heq, hjoin, hmem, hlast⟩ :=
    groupLoop_spec data size hs (data.length + 1) 0 [] (by omega)
  exact ⟨out, by simpa [group] using heq, by simpa using hjoin, hmem, hlast⟩

theorem groupD_spec {α : Type} (data : List α) (size : ℕ) (hs : 0 < size) :
    ((group data (size : ℤ)).getD []).flatten = data ∧
    (∀ c ∈ (group data (size : ℤ)).getD [], c ≠ [] ∧ c.length ≤ size) ∧
    (∀ c ∈ ((group data (size : ℤ)).getD []).dropLast, c.length = size) := by
  obtain ⟨out, heq, hjoin, hmem, hlast⟩ := group_spec data size hs
  rw [heq]
  exact ⟨hjoin, hmem, hlast⟩

theorem groupD_flatten {α : Type} (data : List α) (size : ℕ) (hs : 0 < size) :
    ((group data (size : ℤ)).getD []).flatten = data :=
  (groupD_spec data size hs).1

theorem groupD_eq_nil_iff {α : Type} (data : List α) (size : ℕ) (hs : 0 < size) :
    (group data (size : ℤ)).getD [] = [] ↔ data = [] := by
  constructor
  · intro hnil
    have := groupD_flatten data size hs
    rw [hnil] at this
    exact this.symm
  · intro hnil
    subst hnil
    rw [group_nil_eq]
    rfl

/-! ## Bridges between the kernel-computable rational operations and the
field structure of ℚ -/

theorem qMul_eq (a b : ℚ) : qMul a b = a * b := by
  rw [qMul, Rat.mkRat_eq_divInt, Rat.divInt_eq_div]
  push_cast
  rw [← div_mul_div_comm, Rat.num_div_den, Rat.num_div_den]

theorem qNeg_eq (a : ℚ) : qNeg a = -a := by
  rw [qNeg, Rat.mkRat_eq_divInt, Rat.divInt_eq_div]
  push_cast
  rw [neg_div, Rat.num_div_den]

theorem int_fdiv_one (n : ℤ) : Int.fdiv n 1 = n := by
  cases n with
  | ofNat m =>
    show Int.fdiv (Int.ofNat m) (Int.ofNat 1) = Int.ofNat m
    cases m with
    | zero => rfl
    | succ m => simp [Int.fdiv]
  | negSucc m =>
    show Int.fdiv (Int.negSucc m) (Int.ofNat 1) = Int.negSucc m
    simp [Int.fdiv]

theorem qFloor_intCast (n : ℤ) : qFloor ((n : ℤ) : ℚ) = n := by
  rw [qFloor, Rat.num_intCast, Rat.den_intCast]
  exact int_fdiv_one n

theorem qSub_self_intCast (n : ℤ) : qSub ((n : ℤ) : ℚ) ((n : ℤ) : ℚ) = 0 := by
  rw [qSub, Rat.num_intCast, Rat.den_intCast]
  simp

theorem rnd_intCast (n : ℤ) : rnd ((n : ℤ) : ℚ) = n := by
  simp only [rnd, qFloor_intCast]
  rw [qSub_self_intCast]
  rw [if_pos]
  decide

theorem flPos_den_one (x : ℚ) (hx : x.den = 1) : (flPos x).den = 1 := by
  simp only [flPos]
  by_cases h : 0 ≤ floorLog2 x - 52
  · have key : ∀ m : ℤ, (qMul ((m : ℤ) : ℚ) (pow2 (floorLog2 x - 52))).den = 1 := by
      intro m
      rw [pow2, if_pos h, qMul_eq]
      have hc : ((m : ℚ) * ((2 ^ (floorLog2 x - 52).toNat : ℕ) : ℚ))
          = (((m * (2 ^ (floorLog2 x - 52).toNat : ℕ) : ℤ)) : ℚ) := by
        push_cast
        ring
      rw [hc, Rat.den_intCast]
    exact key _
  · have hneg : 0 ≤ -(floorLog2 x - 52) := by omega
    have h1 : qMul x (pow2 (-(floorLog2 x - 52)))
        = ((x.num * ((2 ^ (-(floorLog2 x - 52)).toNat : ℕ) : ℤ) : ℤ) : ℚ) := by
      rw [pow2, if_pos hneg, qMul, hx, Rat.num_natCast, Rat.den_natCast, mul_one,
        Rat.mkRat_one]
    have h2 : ((2 : ℚ) ^ (-(floorLog2 x - 52)).toNat) ≠ 0 := by positivity
    have hval : qMul ((rnd (qMul x (pow2 (-(floorLog2 x - 52)))) : ℤ) : ℚ)
        (pow2 (floorLog2 x - 52)) = ((x.num : ℤ) : ℚ) := by
      rw [h1, rnd_intCast, pow2, if_neg h, qMul_eq, Rat.mkRat_eq_divInt,
        Rat.divInt_eq_div]
      push_cast
      rw [mul_one_div, mul_div_assoc, div_self h2, mul_one]
    rw [hval, Rat.den_intCast]

theorem fl53_den_one (x : ℚ) (hx : x.den = 1) : (fl53 x).den = 1 := by
  rw [fl53]
  by_cases h0 : x = 0
  · rw [if_pos h0]; rfl
  · rw [if_neg h0]
    by_cases hneg : x < 0
    · rw [if_pos hneg, qNeg_eq, Rat.neg_den]
      apply flPos_den_one
      rw [qNeg_eq, Rat.neg_den, hx]
    · rw [if_neg hneg]
      exact flPos_den_one x hx

theorem jsPow10_den_one (d : ℕ) : (jsPow10 d).den = 1 :=
  fl53_den_one _ (Rat.den_natCast _)

/-! ## Generic lemmas about planner folds and executor loops -/

theorem foldl_toList_eq_filterMap {α β : Type} (step : List β → α → List β)
    (f : α → Option β) (hstep : ∀ res x, step res x = res ++ (f x).toList) :
    ∀ (l : List α) (init : List β), l.foldl step init = init ++ l.filterMap f := by
  intro l
  induction l with
  | nil => intro init; simp
  | cons a l ih =>
    intro init
    rw [List.foldl_cons, hstep, ih]
    cases h : f a <;> simp [h, List.filterMap_cons]

theorem runCaughtLoop_length {α : Type} (submit : ℕ → Except JsError ℕ)
    (build : α → List Instr) (signersOf : α → List Addr) :
    ∀ (l : List α) (k : ℕ),
      (runCaughtLoop submit build signersOf k l).length = l.length := by
  intro l
  induction l with
  | nil => intro k; rfl
  | cons g rest ih =>
    intro k
    rw [runCaughtLoop, List.length_cons, List.length_cons, ih (k + 1)]

theorem runCaughtLoop_map_result {α : Type} (submit : ℕ → Except JsError ℕ)
    (build : α → List Instr) (signersOf : α → List Addr) :
    ∀ (l : List α) (k : ℕ),
      (runCaughtLoop submit build signersOf k l).map BatchOutcome.result
        = (List.range l.length).map (fun i => submit (k + i)) := by
  intro l
  induction l with
  | nil => intro k; rfl
  | cons g rest ih =>
    intro k
    rw [runCaughtLoop, List.map_cons, ih (k + 1), List.length_cons,
      List.range_succ_eq_map, List.map_cons, List.map_map]
    congr 1
    apply List.map_congr_left
    intro i _
    show submit (k + 1 + i) = submit (k + (i + 1))
    congr 1
    omega

theorem runCaughtLoop_mem_tx {α : Type} (submit : ℕ → Except JsError ℕ)
    (build : α → List Instr) (signersOf : α → List Addr) :
    ∀ (l : List α) (k : ℕ) (o : BatchOutcome),
      o ∈ runCaughtLoop submit build signersOf k l → ∃ g ∈ l, o.tx = build g := by
  intro l
  induction l with
  | nil => intro k o ho; simp [runCaughtLoop] at ho
  | cons g rest ih =>
    intro k o ho
    rw [runCaughtLoop] at ho
    rcases List.mem_cons.mp ho with rfl | ho
    · exact ⟨g, by simp, rfl⟩
    · obtain ⟨g', hg', htx⟩ := ih (k + 1) o ho
      exact ⟨g', by simp [hg'], htx⟩

theorem countCreate_cons (o : BatchOutcome) (outs : List BatchOutcome) :
    countCreate (o :: outs)
      = (if txHasCreate o then 1 else 0) + countCreate outs := by
  rw [countCreate, countCreate, List.filter_cons]
  split <;> simp [Nat.add_comm]

theorem runCaughtLoop_countCreate_zero {α : Type} (submit : ℕ → Except JsError ℕ)
    (build : α → List Instr) (signersOf : α → List Addr) :
    ∀ (l : List α), (∀ g ∈ l, ∀ ins ∈ build g, ins.isCreate = false) → ∀ (k : ℕ),
      countCreate (runCaughtLoop submit build signersOf k l) = 0 := by
  intro l
  induction l with
  | nil => intro _ k; rfl
  | cons g rest ih =>
    intro h k
    rw [runCaughtLoop, countCreate_cons]
    have hno : txHasCreate ⟨build g, signersOf g, submit k⟩ = false := by
      rw [txHasCreate]
      simp only [List.any_eq_false]
      intro ins hins
      simp [h g (by simp) ins hins]
    rw [hno, if_neg (by simp), ih (fun g' hg' => h g' (by simp [hg'])) (k + 1)]

theorem runAtaLoop_nil_pending {α : Type} (submit : ℕ → Except JsError ℕ)
    (build : α → List Instr) (signersOf : α → List Addr) :
    ∀ (l : List α) (k : ℕ),
      runAtaLoop submit build signersOf k [] l
        = runCaughtLoop submit build signersOf k l := by
  intro l
  induction l with
  | nil => intro k; rfl
  | cons g rest ih =>
    intro k
    rw [runAtaLoop, runCaughtLoop]
    simp only [List.length_nil, Nat.lt_irrefl, if_false]
    rw [ih (k + 1)]
    rfl

theorem runAtaLoop_cons_pending {α : Type} (submit : ℕ → Except JsError ℕ)
    (build : α → List Instr) (signersOf : α → List Addr) (x : Instr)
    (g : α) (rest : List α) (k : ℕ) :
    runAtaLoop submit build signersOf k [x] (g :: rest)
      = ⟨x :: build g, signersOf g, submit k⟩
        :: runCaughtLoop submit build signersOf (k + 1) rest := by
  rw [runAtaLoop]
  simp only [List.length_cons, List.length_nil]
  rw [if_pos (by omega), if_pos (by omega)]
  simp only [List.getLast?_singleton, Option.toList_some, List.dropLast_single]
  rw [runAtaLoop_nil_pending]
  rfl

theorem runAtaLoop_map_result {α : Type} (submit : ℕ → Except JsError ℕ)
    (build : α → List Instr) (signersOf : α → List Addr) :
    ∀ (l : List α) (k : ℕ) (pending : List Instr),
      (runAtaLoop submit build signersOf k pending l).map BatchOutcome.result
        = (List.range l.length).map (fun i => submit (k + i)) := by
  intro l
  induction l with
  | nil => intro k pending; rfl
  | cons g rest ih =>
    intro k pending
    rw [runAtaLoop, List.map_cons, ih (k + 1), List.length_cons,
      List.range_succ_eq_map, List.map_cons, List.map_map]
    congr 1
    apply List.map_congr_left
    intro i _
    show submit (k + 1 + i) = submit (k + (i + 1))
    congr 1
    omega

theorem runAtaLoop_length {α : Type} (submit : ℕ → Except JsError ℕ)
    (build : α → List Instr) (signersOf : α → List Addr) :
    ∀ (l : List α) (k : ℕ) (pending : List Instr),
      (runAtaLoop submit build signersOf k pending l).length = l.length := by
  intro l
  induction l with
  | nil => intro k pending; rfl
  | cons g rest ih =>
    intro k pending
    rw [runAtaLoop, List.length_cons, List.length_cons, ih (k + 1)]

theorem runUncaughtLoop_none_iff {α : Type} (submit : ℕ → Except JsError ℕ)
    (build : α → List Instr) (signersOf : α → List Addr) :
    ∀ (l : List α) (k : ℕ),
      (runUncaughtLoop submit build signersOf k l).2 = none
        ↔ ∀ i < l.length, ∃ t, submit (k + i) = .ok t := by
  intro l
  induction l with
  | nil => intro k; simp [runUncaughtLoop]
  | cons g rest ih =>
    intro k
    rw [runUncaughtLoop]
    cases hs : submit k with
    | error e =>
      simp only
      constructor
      · intro h; exact absurd h (by simp)
      · intro h
        obtain ⟨t, ht⟩ := h 0 (by simp)
        rw [Nat.add_zero, hs] at ht
        exact absurd ht (by simp)
    | ok t =>
      simp only
      rw [ih (k + 1)]
      constructor
      · intro h i hi
        cases i with
        | zero => exact ⟨t, by rw [Nat.add_zero, hs]⟩
        | succ i =>
          obtain ⟨t', ht'⟩ := h i (by simpa using hi)
          refine ⟨t', ?_⟩
          rw [← ht']
          congr 1
          omega
      · intro h i hi
        obtain ⟨t', ht'⟩ := h (i + 1) (by simpa using hi)
        refine ⟨t', ?_⟩
        rw [← ht']
        congr 1
        omega

theorem foldl_append_if_map {α β : Type} (g : α → List β) :
    ∀ (l : List α) (init : List β),
      l.foldl (fun acc c => if 0 < (g c).length then acc ++ g c else acc) init
        = init ++ (l.map g).flatten := by
  intro l
  induction l with
  | nil => intro init; simp
  | cons c rest ih =>
    intro init
    rw [List.foldl_cons]
    by_cases h : 0 < (g c).length
    · rw [if_pos h, ih]
      simp
    · rw [if_neg h, ih]
      have hnil : g c = [] := by
        cases hg : g c with
        | nil => rfl
        | cons x xs => rw [hg] at h; simp at h
      simp [hnil]

theorem Sol.getTransferInstructions_eq (ch : Chain) (accounts : List Addr)
    (payer : Addr) (amount : ℚ) :
    Sol.getTransferInstructions ch accounts payer amount
      = accounts.filterMap (Sol.planTransferOne ch payer amount) := by
  have hstep : ∀ (res : List InstrRec) (acct : Addr),
      (match ch.account acct with
       | none => res
       | some item =>
         if item.lamports = 0 then res
         else
           let realAmount : ℚ :=
             if amount = 0 then (item.lamports : ℚ) else jsMul amount LAMPORTS_PER_SOL
           if (item.lamports : ℚ) < realAmount then res
           else res ++ [⟨.systemTransfer acct payer realAmount, acct,
             jsDiv realAmount LAMPORTS_PER_SOL⟩])
      = res ++ (Sol.planTransferOne ch payer amount acct).toList := by
    intro res acct
    cases hx : ch.account acct with
    | none => simp [Sol.planTransferOne, hx]
    | some item =>
      simp only [Sol.planTransferOne, hx]
      split_ifs <;> simp
  exact foldl_toList_eq_filterMap _ _ hstep accounts []

theorem Sol.collectSOLPlan_eq (ch : Chain) (payer : Addr) (sources : List Addr)
    (amount : ℚ) :
    Sol.collectSOLPlan ch payer sources amount
      = sources.filterMap (Sol.planTransferOne ch payer amount) := by
  have h1 : Sol.collectSOLPlan ch payer sources amount
      = [] ++ (((group sources (20 : ℤ)).getD []).map
          (fun accounts => Sol.getTransferInstructions ch accounts payer amount)).flatten :=
    foldl_append_if_map _ _ []
  rw [h1, List.nil_append]
  have h2 : ((group sources (20 : ℤ)).getD []).map
        (fun accounts => Sol.getTransferInstructions ch accounts payer amount)
      = ((group sources (20 : ℤ)).getD []).map
        (List.filterMap (Sol.planTransferOne ch payer amount)) := by
    apply List.map_congr_left
    intro c _
    exact Sol.getTransferInstructions_eq ch c payer amount
  rw [h2, ← List.filterMap_flatten]
  have hflat := groupD_flatten sources 20 (by norm_num)
  rw [show ((20 : ℕ) : ℤ) = (20 : ℤ) by norm_num] at hflat
  rw [hflat]

theorem Legacy.transferInstructionsLegacy_eq (ch : Chain) (accounts : List Addr)
    (payer : Addr) (amount : Option ℚ) :
    Legacy.getTransferInstructions ch accounts payer amount
      = accounts.filterMap (Legacy.planTransferOne ch payer amount) := by
  have hstep : ∀ (res : List InstrRec) (acct : Addr),
      (match ch.account acct with
       | none => res
       | some item =>
         if (item.lamports : ℚ) < (match amount with
             | none => (1 : ℚ)
             | some a => jsMul a LAMPORTS_PER_SOL) then res
         else
           let realAmount : ℚ := match amount with
             | none => (item.lamports : ℚ)
             | some a => jsMul a LAMPORTS_PER_SOL
           res ++ [⟨.systemTransfer acct payer realAmount, acct,
             jsDiv realAmount LAMPORTS_PER_SOL⟩])
      = res ++ (Legacy.planTransferOne ch payer amount acct).toList := by
    intro res acct
    cases hx : ch.account acct with
    | none => simp [Legacy.planTransferOne, hx]
    | some item =>
      simp only [Legacy.planTransferOne, hx]
      split_ifs <;> simp
  exact foldl_toList_eq_filterMap _ _ hstep accounts []

theorem Legacy.collectPlan_eq (ch : Chain) (payer : Addr) (sources : List Addr)
    (amount : Option ℚ) :
    Legacy.collectPlan ch payer sources amount
      = sources.filterMap (Legacy.planTransferOne ch payer amount) := by
  have h1 : Legacy.collectPlan ch payer sources amount
      = [] ++ (((group sources (20 : ℤ)).getD []).map
          (fun accounts => Legacy.getTransferInstructions ch accounts payer amount)).flatten :=
    foldl_append_if_map _ _ []
  rw [h1, List.nil_append]
  have h2 : ((group sources (20 : ℤ)).getD []).map
        (fun accounts => Legacy.getTransferInstructions ch accounts payer amount)
      = ((group sources (20 : ℤ)).getD []).map
        (List.filterMap (Legacy.planTransferOne ch payer amount)) := by
    apply List.map_congr_left
    intro c _
    exact Legacy.transferInstructionsLegacy_eq ch c payer amount
  rw [h2, ← List.filterMap_flatten]
  have hflat := groupD_flatten sources 20 (by norm_num)
  rw [show ((20 : ℕ) : ℤ) = (20 : ℤ) by norm_num] at hflat
  rw [hflat]

theorem Legacy.getTokenTransferInstructions_eq (ch : Chain)
    (accounts : List (Addr × Addr)) (targetAta : Addr) (amount : Option ℚ)
    (closeAta : Bool) :
    Legacy.getTokenTransferInstructions ch accounts targetAta amount closeAta
      = accounts.filterMap (Legacy.planTokenOne ch targetAta amount closeAta) := by
  have hstep : ∀ (res : List LegacyTokenRec) (sa : Addr × Addr),
      (match ch.parsedToken sa.2 with
       | none => res
       | some tok =>
         if amount.isSome ∧ (tok.uiAmount.getD 0) < (tok.amount : ℚ) then res
         else
           let realAmount : ℚ := match amount with
             | none => (tok.amount : ℚ)
             | some a => Legacy.scale a tok.decimals
           let transferInstruction : Option Instr :=
             if 0 < tok.amount then some (.tokenTransfer sa.2 targetAta sa.1 realAmount)
             else none
           let closeInstruction : Option Instr :=
             if closeAta then some (.closeAccount sa.2 sa.1 sa.1) else none
           if transferInstruction = none ∧ closeInstruction = none then res
           else res ++ [⟨transferInstruction, closeInstruction, sa.1,
             jsDiv realAmount (jsPow10 tok.decimals)⟩])
      = res ++ (Legacy.planTokenOne ch targetAta amount closeAta sa).toList := by
    intro res sa
    cases hx : ch.parsedToken sa.2 with
    | none => simp [Legacy.planTokenOne, hx]
    | some tok =>
      simp only [Legacy.planTokenOne, hx]
      split_ifs <;> simp
  exact foldl_toList_eq_filterMap _ _ hstep accounts []

theorem Token.getAllTokenTransferInstructions_eq (ch : Chain)
    (accounts : List (Addr × Addr)) (targetAta : Addr) :
    Token.getAllTokenTransferInstructions ch accounts targetAta
      = accounts.filterMap (Token.planAllOne ch targetAta) := by
  have hstep : ∀ (res : List AllRec) (sa : Addr × Addr),
      (match ch.parsedToken sa.2 with
       | none => res
       | some tok =>
         let amount : ℤ := (tok.amount : ℤ)
         let transferInstruction : Option Instr :=
           if 0 < amount then some (.tokenTransfer sa.2 targetAta sa.1 (amount : ℚ))
           else none
         res ++ [⟨transferInstruction, sa.1, tok.uiAmount, .closeAccount sa.2 sa.1 sa.1⟩])
      = res ++ (Token.planAllOne ch targetAta sa).toList := by
    intro res sa
    cases hx : ch.parsedToken sa.2 with
    | none => simp [Token.planAllOne, hx]
    | some tok => simp [Token.planAllOne, hx]
  exact foldl_toList_eq_filterMap _ _ hstep accounts []

theorem Token.collectAllTokenPlan_eq (ch : Chain) (ataOf : Addr → Addr → Addr)
    (mint : Addr) (sources : List Addr) (targetAta : Addr) :
    Token.collectAllTokenPlan ch ataOf mint sources targetAta
      = (sources.map fun s => (s, ataOf mint s)).filterMap
          (Token.planAllOne ch targetAta) := by
  have h1 : Token.collectAllTokenPlan ch ataOf mint sources targetAta
      = [] ++ (((group (sources.map fun s => (s, ataOf mint s)) (50 : ℤ)).getD []).map
          (fun accounts => Token.getAllTokenTransferInstructions ch accounts targetAta)).flatten :=
    foldl_append_if_map _ _ []
  rw [h1, List.nil_append]
  have h2 : ((group (sources.map fun s => (s, ataOf mint s)) (50 : ℤ)).getD []).map
        (fun accounts => Token.getAllTokenTransferInstructions ch accounts targetAta)
      = ((group (sources.map fun s => (s, ataOf mint s)) (50 : ℤ)).getD []).map
        (List.filterMap (Token.planAllOne ch targetAta)) := by
    apply List.map_congr_left
    intro c _
    exact Token.getAllTokenTransferInstructions_eq ch c targetAta
  rw [h2, ← List.filterMap_flatten]
  have hflat := groupD_flatten (sources.map fun s => (s, ataOf mint s)) 50 (by norm_num)
  rw [show ((50 : ℕ) : ℤ) = (50 : ℤ) by norm_num] at hflat
  rw [hflat]

theorem except_ok_bind {ε α β : Type} (a : α) (f : α → Except ε β) :
    (Except.ok a >>= f) = f a := rfl

theorem except_error_bind {ε α β : Type} (e : ε) (f : α → Except ε β) :
    ((Except.error e : Except ε α) >>= f) = Except.error e := rfl

theorem Token.fixedScaled_ok (amount : ℚ) (hden : amount.den = 1) (d : ℕ) :
    Token.fixedScaled amount d = .ok (amount.num * (jsPow10 d).num) := by
  rw [Token.fixedScaled]
  simp [jsBigInt, hden, jsPow10_den_one d]

theorem Token.fixedScaled_err (amount : ℚ) (hden : amount.den ≠ 1) (d : ℕ) :
    Token.fixedScaled amount d = .error .rangeError := by
  rw [Token.fixedScaled]
  simp [jsBigInt, hden]

theorem Token.tokenFixedFold_ok (ch : Chain) (targetAta : Addr) (amount : ℚ)
    (hden : amount.den = 1) :
    ∀ (accounts : List (Addr × Addr)) (init : List InstrRec),
      List.foldlM (fun res sa =>
        match ch.parsedToken sa.2 with
        | none => Except.ok res
        | some tok =>
          if (tok.uiAmount.getD 0) < amount then Except.ok res
          else do
            let v ← Token.fixedScaled amount tok.decimals
            Except.ok (res ++ [(⟨.tokenTransfer sa.2 targetAta sa.1 ((v : ℤ) : ℚ), sa.1,
              amount⟩ : InstrRec)])) init accounts
      = .ok (init ++ accounts.filterMap (Token.planFixedOne ch targetAta amount)) := by
  intro accounts
  induction accounts with
  | nil =>
    intro init
    show Except.ok init = _
    simp
  | cons sa rest ih =>
    intro init
    rw [List.foldlM_cons]
    cases hx : ch.parsedToken sa.2 with
    | none =>
      simp only [hx, except_ok_bind]
      rw [ih init]
      simp [List.filterMap_cons, Token.planFixedOne, hx]
    | some tok =>
      by_cases hui : (tok.uiAmount.getD 0) < amount
      · simp only [hx, if_pos hui, except_ok_bind]
        rw [ih init]
        simp [List.filterMap_cons, Token.planFixedOne, hx, if_pos hui]
      · simp only [hx, if_neg hui, Token.fixedScaled_ok amount hden tok.decimals,
          except_ok_bind]
        rw [ih]
        simp [List.filterMap_cons, Token.planFixedOne, hx, if_neg hui,
          Token.fixedScaled_ok amount hden tok.decimals]

theorem Token.getTokenTransferInstructions_eq_ok (ch : Chain)
    (accounts : List (Addr × Addr)) (targetAta : Addr) (amount : ℚ)
    (hden : amount.den = 1) :
    Token.getTokenTransferInstructions ch accounts targetAta amount
      = .ok (accounts.filterMap (Token.planFixedOne ch targetAta amount)) :=
  Token.tokenFixedFold_ok ch targetAta amount hden accounts []

theorem Token.tokenFixedFold_err (ch : Chain) (targetAta : Addr) (amount : ℚ)
    (hden : amount.den ≠ 1) :
    ∀ (accounts : List (Addr × Addr)), (∃ sa ∈ accounts, Token.qualifies ch amount sa) →
    ∀ (init : List InstrRec),
      List.foldlM (fun res sa =>
        match ch.parsedToken sa.2 with
        | none => Except.ok res
        | some tok =>
          if (tok.uiAmount.getD 0) < amount then Except.ok res
          else do
            let v ← Token.fixedScaled amount tok.decimals
            Except.ok (res ++ [(⟨.tokenTransfer sa.2 targetAta sa.1 ((v : ℤ) : ℚ), sa.1,
              amount⟩ : InstrRec)])) init accounts
      = .error .rangeError := by
  intro accounts
  induction accounts with
  | nil => intro h init; simp at h
  | cons sa rest ih =>
    intro h init
    rw [List.foldlM_cons]
    by_cases hq : Token.qualifies ch amount sa
    · obtain ⟨tok, hx, hnot⟩ := hq
      simp only [hx, if_neg hnot, Token.fixedScaled_err amount hden tok.decimals,
        except_error_bind]
    · have hrest : ∃ sa' ∈ rest, Token.qualifies ch amount sa' := by
        obtain ⟨sa', hmem, hq'⟩ := h
        rcases List.mem_cons.mp hmem with rfl | hmem'
        · exact absurd hq' hq
        · exact ⟨sa', hmem', hq'⟩
      cases hx : ch.parsedToken sa.2 with
      | none =>
        simp only [hx, except_ok_bind]
        exact ih hrest init
      | some tok =>
        have hui : (tok.uiAmount.getD 0) < amount := by
          by_contra hnot
          exact hq ⟨tok, hx, hnot⟩
        simp only [hx, if_pos hui, except_ok_bind]
        exact ih hrest init

theorem Token.tokenFixedFold_err_shape (ch : Chain) (targetAta : Addr) (amount : ℚ) :
    ∀ (accounts : List (Addr × Addr)) (init : List InstrRec) (e : JsError),
      List.foldlM (fun res sa =>
        match ch.parsedToken sa.2 with
        | none => Except.ok res
        | some tok =>
          if (tok.uiAmount.getD 0) < amount then Except.ok res
          else do
            let v ← Token.fixedScaled amount tok.decimals
            Except.ok (res ++ [(⟨.tokenTransfer sa.2 targetAta sa.1 ((v : ℤ) : ℚ), sa.1,
              amount⟩ : InstrRec)])) init accounts
      = .error e → e = .rangeError := by
  intro accounts
  induction accounts with
  | nil =>
    intro init e h
    exact Except.noConfusion h
  | cons sa rest ih =>
    intro init e h
    rw [List.foldlM_cons] at h
    cases hx : ch.parsedToken sa.2 with
    | none =>
      simp only [hx, except_ok_bind] at h
      exact ih init e h
    | some tok =>
      by_cases hui : (tok.uiAmount.getD 0) < amount
      · simp only [hx, if_pos hui, except_ok_bind] at h
        exact ih init e h
      · simp only [hx, if_neg hui] at h
        by_cases hden : amount.den = 1
        · rw [Token.fixedScaled_ok amount hden tok.decimals, except_ok_bind] at h
          exact ih _ e h
        · rw [Token.fixedScaled_err amount hden tok.decimals, except_error_bind] at h
          injection h with h'
          exact h'.symm

theorem Token.tokenFixedFold_skip (ch : Chain) (targetAta : Addr) (amount : ℚ) :
    ∀ (accounts : List (Addr × Addr)),
      (∀ sa ∈ accounts, ¬ Token.qualifies ch amount sa) → ∀ (init : List InstrRec),
      List.foldlM (fun res sa =>
        match ch.parsedToken sa.2 with
        | none => Except.ok res
        | some tok =>
          if (tok.uiAmount.getD 0) < amount then Except.ok res
          else do
            let v ← Token.fixedScaled amount tok.decimals
            Except.ok (res ++ [(⟨.tokenTransfer sa.2 targetAta sa.1 ((v : ℤ) : ℚ), sa.1,
              amount⟩ : InstrRec)])) init accounts
      = .ok init := by
  intro accounts
  induction accounts with
  | nil => intro _ init; rfl
  | cons sa rest ih =>
    intro h init
    rw [List.foldlM_cons]
    cases hx : ch.parsedToken sa.2 with
    | none =>
      simp only [hx, except_ok_bind]
      exact ih (fun sa' h' => h sa' (by simp [h'])) init
    | some tok =>
      have hui : (tok.uiAmount.getD 0) < amount := by
        by_contra hnot
        exact h sa (by simp) ⟨tok, hx, hnot⟩
      simp only [hx, if_pos hui, except_ok_bind]
      exact ih (fun sa' h' => h sa' (by simp [h'])) init

theorem Token.getTokenTransferInstructions_skip (ch : Chain)
    (accounts : List (Addr × Addr)) (targetAta : Addr) (amount : ℚ)
    (h : ∀ sa ∈ accounts, ¬ Token.qualifies ch amount sa) :
    Token.getTokenTransferInstructions ch accounts targetAta amount = .ok [] :=
  Token.tokenFixedFold_skip ch targetAta amount accounts h []

theorem Token.tokenPlanFoldGroups_ok (ch : Chain) (targetAta : Addr) (amount : ℚ)
    (hden : amount.den = 1) :
    ∀ (chunks : List (List (Addr × Addr))) (init : List InstrRec),
      List.foldlM (fun acc accounts => do
        let instructions ← Token.getTokenTransferInstructions ch accounts targetAta amount
        Except.ok (if 0 < instructions.length then acc ++ instructions else acc))
        init chunks
      = .ok (init ++ (chunks.map
          (fun c => c.filterMap (Token.planFixedOne ch targetAta amount))).flatten) := by
  intro chunks
  induction chunks with
  | nil =>
    intro init
    show Except.ok init = _
    simp
  | cons c rest ih =>
    intro init
    rw [List.foldlM_cons,
      Token.getTokenTransferInstructions_eq_ok ch c targetAta amount hden, except_ok_bind]
    by_cases h : 0 < (c.filterMap (Token.planFixedOne ch targetAta amount)).length
    · rw [if_pos h, except_ok_bind, ih]
      simp
    · rw [if_neg h, except_ok_bind, ih]
      have hnil : c.filterMap (Token.planFixedOne ch targetAta amount) = [] := by
        cases hg : c.filterMap (Token.planFixedOne ch targetAta amount) with
        | nil => rfl
        | cons x xs => rw [hg] at h; simp at h
      simp [hnil]

theorem Token.collectTokenPlan_ok (ch : Chain) (ataOf : Addr → Addr → Addr)
    (mint : Addr) (sources : List Addr) (targetAta : Addr) (amount : ℚ)
    (hden : amount.den = 1) :
    Token.collectTokenPlan ch ataOf mint sources targetAta amount
      = .ok ((sources.map fun s => (s, ataOf mint s)).filterMap
          (Token.planFixedOne ch targetAta amount)) := by
  have h1 := Token.tokenPlanFoldGroups_ok ch targetAta amount hden
    ((group (sources.map fun s => (s, ataOf mint s)) (50 : ℤ)).getD []) []
  refine h1.trans ?_
  congr 1
  rw [List.nil_append, ← List.filterMap_flatten]
  have hflat := groupD_flatten (sources.map fun s => (s, ataOf mint s)) 50 (by norm_num)
  rw [show ((50 : ℕ) : ℤ) = (50 : ℤ) by norm_num] at hflat
  rw [hflat]

theorem Token.tokenPlanFoldGroups_err (ch : Chain) (targetAta : Addr) (amount : ℚ)
    (hden : amount.den ≠ 1) :
    ∀ (chunks : List (List (Addr × Addr))),
      (∃ c ∈ chunks, ∃ sa ∈ c, Token.qualifies ch amount sa) →
    ∀ (init : List InstrRec),
      List.foldlM (fun acc accounts => do
        let instructions ← Token.getTokenTransferInstructions ch accounts targetAta amount
        Except.ok (if 0 < instructions.length then acc ++ instructions else acc))
        init chunks
      = .error .rangeError := by
  intro chunks
  induction chunks with
  | nil => intro h _; simp at h
  | cons c rest ih =>
    intro h init
    rw [List.foldlM_cons]
    by_cases hc : ∃ sa ∈ c, Token.qualifies ch amount sa
    · rw [show Token.getTokenTransferInstructions ch c targetAta amount
          = .error .rangeError from Token.tokenFixedFold_err ch targetAta amount hden c hc [],
        except_error_bind, except_error_bind]
    · have hnone : ∀ sa ∈ c, ¬ Token.qualifies ch amount sa := by
        intro sa hsa hq
        exact hc ⟨sa, hsa, hq⟩
      rw [Token.getTokenTransferInstructions_skip ch c targetAta amount hnone,
        except_ok_bind]
      have hrest : ∃ c' ∈ rest, ∃ sa ∈ c', Token.qualifies ch amount sa := by
        obtain ⟨c', hmem, hex⟩ := h
        rcases List.mem_cons.mp hmem with rfl | hmem'
        · exact absurd hex hc
        · exact ⟨c', hmem', hex⟩
      simp only [List.length_nil, Nat.lt_irrefl, if_false]
      rw [except_ok_bind]
      exact ih hrest init

theorem Token.collectTokenPlan_err (ch : Chain) (ataOf : Addr → Addr → Addr)
    (mint : Addr) (sources : List Addr) (targetAta : Addr) (amount : ℚ)
    (hden : amount.den ≠ 1)
    (hex : ∃ s ∈ sources, Token.qualifies ch amount (s, ataOf mint s)) :
    Token.collectTokenPlan ch ataOf mint sources targetAta amount
      = .error .rangeError := by
  have hflat := groupD_flatten (sources.map fun s => (s, ataOf mint s)) 50 (by norm_num)
  rw [show ((50 : ℕ) : ℤ) = (50 : ℤ) by norm_num] at hflat
  obtain ⟨s, hs, hq⟩ := hex
  have hmem : (s, ataOf mint s) ∈ (sources.map fun s => (s, ataOf mint s)) :=
    List.mem_map_of_mem _ hs
  rw [← hflat] at hmem
  obtain ⟨c, hcmem, hsamem⟩ := List.mem_flatten.mp hmem
  exact Token.tokenPlanFoldGroups_err ch targetAta amount hden
    ((group (sources.map fun s => (s, ataOf mint s)) (50 : ℤ)).getD [])
    ⟨c, hcmem, (s, ataOf mint s), hsamem, hq⟩ []

theorem Token.planFixedOne_no_create (ch : Chain) (targetAta : Addr) (amount : ℚ)
    (sa : Addr × Addr) (r : InstrRec)
    (h : Token.planFixedOne ch targetAta amount sa = some r) :
    r.instruction.isCreate = false := by
  rw [Token.planFixedOne] at h
  cases hx : ch.parsedToken sa.2 with
  | none => simp [hx] at h
  | some tok =>
    simp only [hx] at h
    by_cases hui : (tok.uiAmount.getD 0) < amount
    · rw [if_pos hui] at h
      exact Option.noConfusion h
    · rw [if_neg hui] at h
      cases hs : Token.fixedScaled amount tok.decimals with
      | error e => rw [hs] at h; exact Option.noConfusion h
      | ok v =>
        rw [hs] at h
        injection h with h'
        rw [← h']
        rfl

theorem Token.planAllOne_no_create (ch : Chain) (targetAta : Addr)
    (sa : Addr × Addr) (r : AllRec) (h : Token.planAllOne ch targetAta sa = some r) :
    (∀ ins, r.instruction = some ins → ins.isCreate = false) ∧
      r.closeInstruction.isCreate = false := by
  rw [Token.planAllOne] at h
  cases hx : ch.parsedToken sa.2 with
  | none => simp [hx] at h
  | some tok =>
    simp only [hx] at h
    injection h with h'
    rw [← h']
    constructor
    · intro ins hins
      simp only at hins
      by_cases hpos : 0 < ((tok.amount : ℕ) : ℤ)
      · rw [if_pos hpos] at hins
        injection hins with h''
        rw [← h'']
        rfl
      · rw [if_neg hpos] at hins
        exact Option.noConfusion hins
    · rfl

theorem Token.mintScaled_ok (d : ℕ) (amount : ℚ) (hden : amount.den = 1) :
    Token.mintScaled d amount = .ok ((jsPow10 d).num * amount.num) := by
  rw [Token.mintScaled]
  simp [jsBigInt, jsPow10_den_one d, hden]

theorem Token.buildMintTx_ok (payer mint : Addr) (d : ℕ) (amount : ℚ)
    (hden : amount.den = 1) :
    ∀ (g : List AtaInfo), ∃ tx, Token.buildMintTx payer mint d amount g = .ok tx := by
  intro g
  induction g with
  | nil => exact ⟨[], rfl⟩
  | cons a rest ih =>
    obtain ⟨tx, htx⟩ := ih
    refine ⟨(if a.ataExists then [] else [Instr.createAta payer a.ata a.target mint]) ++
      [Instr.mintTo mint a.ata payer ((jsPow10 d).num * amount.num)] ++ tx, ?_⟩
    rw [Token.buildMintTx, Token.mintScaled_ok d amount hden, except_ok_bind, htx,
      except_ok_bind]

theorem Token.batchMintToLoop_den_one (ch : Chain) (payer mint : Addr) (d : ℕ)
    (amount : ℚ) (hden : amount.den = 1) :
    ∀ (gs : List (List AtaInfo)) (k : ℕ),
      (Token.batchMintToLoop ch payer mint d amount k gs).2 = none ∧
      (Token.batchMintToLoop ch payer mint d amount k gs).1.map BatchOutcome.result
        = (List.range gs.length).map (fun i => ch.submit (k + i)) := by
  intro gs
  induction gs with
  | nil => intro k; exact ⟨rfl, rfl⟩
  | cons g rest ih =>
    intro k
    obtain ⟨tx, htx⟩ := Token.buildMintTx_ok payer mint d amount hden g
    rw [Token.batchMintToLoop, htx]
    obtain ⟨ih1, ih2⟩ := ih (k + 1)
    refine ⟨ih1, ?_⟩
    simp only [List.map_cons, List.length_cons, List.range_succ_eq_map, List.map_map]
    rw [ih2]
    congr 1
    apply List.map_congr_left
    intro i _
    show ch.submit (k + 1 + i) = ch.submit (k + (i + 1))
    congr 1
    omega

theorem runUncaughtLoop_some_length {α : Type} (submit : ℕ → Except JsError ℕ)
    (build : α → List Instr) (signersOf : α → List Addr) :
    ∀ (l : List α) (k : ℕ),
      (runUncaughtLoop submit build signersOf k l).2.isSome = true →
      (runUncaughtLoop submit build signersOf k l).1.length < l.length := by
  intro l
  induction l with
  | nil => intro k h; simp [runUncaughtLoop] at h
  | cons g rest ih =>
    intro k h
    rw [runUncaughtLoop] at h ⊢
    cases hs : submit k with
    | error e => simp [hs]
    | ok t =>
      rw [hs] at h
      simp only at h ⊢
      simp only [List.length_cons]
      have := ih (k + 1) h
      omega

theorem Token.tokenFixedFold_mem (ch : Chain) (targetAta : Addr) (amount : ℚ) :
    ∀ (accounts : List (Addr × Addr)) (init res : List InstrRec),
      List.foldlM (fun res sa =>
        match ch.parsedToken sa.2 with
        | none => Except.ok res
        | some tok =>
          if (tok.uiAmount.getD 0) < amount then Except.ok res
          else do
            let v ← Token.fixedScaled amount tok.decimals
            Except.ok (res ++ [(⟨.tokenTransfer sa.2 targetAta sa.1 ((v : ℤ) : ℚ), sa.1,
              amount⟩ : InstrRec)])) init accounts = .ok res →
      ∀ r ∈ res, r ∈ init ∨ r.instruction.isCreate = false := by
  intro accounts
  induction accounts with
  | nil =>
    intro init res h r hr
    have h' : Except.ok init = Except.ok res := h
    injection h' with h''
    rw [← h''] at hr
    exact Or.inl hr
  | cons sa rest ih =>
    intro init res h r hr
    rw [List.foldlM_cons] at h
    cases hx : ch.parsedToken sa.2 with
    | none =>
      simp only [hx, except_ok_bind] at h
      exact ih init res h r hr
    | some tok =>
      by_cases hui : (tok.uiAmount.getD 0) < amount
      · simp only [hx, if_pos hui, except_ok_bind] at h
        exact ih init res h r hr
      · simp only [hx, if_neg hui] at h
        cases hs : Token.fixedScaled amount tok.decimals with
        | error e =>
          rw [hs, except_error_bind, except_error_bind] at h
          exact Except.noConfusion h
        | ok v =>
          rw [hs, except_ok_bind, except_ok_bind] at h
          rcases ih _ res h r hr with hin | hni
          · rcases List.mem_append.mp hin with hin1 | hin2
            · exact Or.inl hin1
            · right
              have hreq : r = ⟨.tokenTransfer sa.2 targetAta sa.1 ((v : ℤ) : ℚ), sa.1,
                  amount⟩ := by simpa using hin2
              rw [hreq]
              rfl
          · exact Or.inr hni

theorem Token.tokenPlanFoldGroups_mem (ch : Chain) (targetAta : Addr) (amount : ℚ) :
    ∀ (chunks : List (List (Addr × Addr))) (init res : List InstrRec),
      (∀ r ∈ init, r.instruction.isCreate = false) →
      List.foldlM (fun acc accounts => do
        let instructions ← Token.getTokenTransferInstructions ch accounts targetAta amount
        Except.ok (if 0 < instructions.length then acc ++ instructions else acc))
        init chunks = .ok res →
      ∀ r ∈ res, r.instruction.isCreate = false := by
  intro chunks
  induction chunks with
  | nil =>
    intro init res hinit h r hr
    have h' : Except.ok init = Except.ok res := h
    injection h' with h''
    rw [← h''] at hr
    exact hinit r hr
  | cons c rest ih =>
    intro init res hinit h r hr
    rw [List.foldlM_cons] at h
    cases hins : Token.getTokenTransferInstructions ch c targetAta amount with
    | error e =>
      rw [hins, except_error_bind, except_error_bind] at h
      exact Except.noConfusion h
    | ok ins =>
      rw [hins, except_ok_bind] at h
      have hinsP : ∀ r' ∈ ins, r'.instruction.isCreate = false := by
        intro r' hr'
        rcases Token.tokenFixedFold_mem ch targetAta amount c [] ins hins r' hr' with
          h0 | hgood
        · simp at h0
        · exact hgood
      by_cases hlen : 0 < ins.length
      · rw [if_pos hlen, except_ok_bind] at h
        refine ih (init ++ ins) res ?_ h r hr
        intro r' hr'
        rcases List.mem_append.mp hr' with hm1 | hm2
        · exact hinit r' hm1
        · exact hinsP r' hm2
      · rw [if_neg hlen, except_ok_bind] at h
        exact ih init res hinit h r hr

theorem Token.collectTokenPlan_no_create (ch : Chain) (ataOf : Addr → Addr → Addr)
    (mint : Addr) (sources : List Addr) (targetAta : Addr) (amount : ℚ)
    (plan : List InstrRec)
    (h : Token.collectTokenPlan ch ataOf mint sources targetAta amount = .ok plan) :
    ∀ r ∈ plan, r.instruction.isCreate = false :=
  Token.tokenPlanFoldGroups_mem ch targetAta amount
    ((group (sources.map fun s => (s, ataOf mint s)) (50 : ℤ)).getD []) [] plan
    (by simp) h

theorem Token.collectToken_create_cases (ch : Chain) (ataOf : Addr → Addr → Addr)
    (mint payer target : Addr) (sources : List Addr) (amount : ℚ) :
    countCreate (Token.collectToken ch ataOf mint payer sources target amount).1 ≤ 1 ∧
    (ch.parsedToken (ataOf mint target) ≠ none →
      countCreate (Token.collectToken ch ataOf mint payer sources target amount).1 = 0) ∧
    (ch.parsedToken (ataOf mint target) = none →
      (Token.collectToken ch ataOf mint payer sources target amount).1 ≠ [] →
      ∃ o outs, (Token.collectToken ch ataOf mint payer sources target amount).1
          = o :: outs ∧ txHasCreate o = true ∧ countCreate outs = 0) := by
  by_cases h1 : amount ≤ 0
  · unfold Token.collectToken
    rw [if_pos h1]
    exact ⟨by simp [countCreate], fun _ => by simp [countCreate], fun _ h => absurd rfl h⟩
  by_cases h2 : (ch.getBalance payer : ℚ) < solReserve
  · unfold Token.collectToken
    rw [if_neg h1, if_pos h2]
    exact ⟨by simp [countCreate], fun _ => by simp [countCreate], fun _ h => absurd rfl h⟩
  cases hplan : Token.collectTokenPlan ch ataOf mint sources (ataOf mint target) amount with
  | error e =>
    unfold Token.collectToken
    rw [if_neg h1, if_neg h2]
    simp only [hplan]
    exact ⟨by simp [countCreate], fun _ => by simp [countCreate], fun _ h => absurd rfl h⟩
  | ok plan =>
    unfold Token.collectToken
    rw [if_neg h1, if_neg h2]
    simp only [hplan]
    have hno : ∀ g ∈ (group plan (10 : ℤ)).getD [],
        ∀ ins ∈ g.map InstrRec.instruction, ins.isCreate = false := by
      intro g hg ins hins
      obtain ⟨r, hr, rfl⟩ := List.mem_map.mp hins
      have hflat := groupD_flatten plan 10 (by norm_num)
      rw [show ((10 : ℕ) : ℤ) = (10 : ℤ) by norm_num] at hflat
      have hrplan : r ∈ plan := by
        rw [← hflat]
        exact List.mem_flatten.mpr ⟨g, hg, hr⟩
      exact Token.collectTokenPlan_no_create ch ataOf mint sources (ataOf mint target)
        amount plan hplan r hrplan
    by_cases habs : ch.parsedToken (ataOf mint target) = none
    · rw [if_pos habs]
      cases hbs : (group plan (10 : ℤ)).getD [] with
      | nil =>
        exact ⟨by simp [countCreate, runAtaLoop], fun hne => absurd habs hne,
          fun _ h => absurd rfl h⟩
      | cons g rest =>
        rw [runAtaLoop_cons_pending]
        have htx : txHasCreate ⟨Instr.createAta payer (ataOf mint target) target mint ::
            (fun g => g.map InstrRec.instruction) g,
            (fun g => payer :: g.map InstrRec.signers) g, ch.submit 0⟩ = true := by
          simp [txHasCreate, Instr.isCreate]
        have hrest0 : countCreate (runCaughtLoop ch.submit
            (fun g => g.map InstrRec.instruction)
            (fun g => payer :: g.map InstrRec.signers) (0 + 1) rest) = 0 := by
          apply runCaughtLoop_countCreate_zero
          intro g' hg' ins hins
          exact hno g' (by rw [hbs]; exact List.mem_cons_of_mem _ hg') ins hins
        refine ⟨?_, fun hne => absurd habs hne, fun _ _ => ⟨_, _, rfl, htx, hrest0⟩⟩
        rw [countCreate_cons, htx, hrest0]
        simp
    · rw [if_neg habs, runAtaLoop_nil_pending]
      have h0 : countCreate (runCaughtLoop ch.submit (fun g => g.map InstrRec.instruction)
          (fun g => payer :: g.map InstrRec.signers) 0 ((group plan (10 : ℤ)).getD []))
          = 0 := runCaughtLoop_countCreate_zero _ _ _ _ hno 0
      exact ⟨by rw [h0]; omega, fun _ => h0, fun habs' => absurd habs' habs⟩

theorem Token.collectAllToken_create_cases (ch : Chain) (ataOf : Addr → Addr → Addr)
    (mint payer target : Addr) (sources : List Addr) :
    countCreate (Token.collectAllTokenAndCloseAccount ch ataOf mint payer sources target).1
      ≤ 1 ∧
    (ch.parsedToken (ataOf mint target) ≠ none →
      countCreate
        (Token.collectAllTokenAndCloseAccount ch ataOf mint payer sources target).1 = 0) ∧
    (ch.parsedToken (ataOf mint target) = none →
      (Token.collectAllTokenAndCloseAccount ch ataOf mint payer sources target).1 ≠ [] →
      ∃ o outs, (Token.collectAllTokenAndCloseAccount ch ataOf mint payer sources target).1
          = o :: outs ∧ txHasCreate o = true ∧ countCreate outs = 0) := by
  by_cases h2 : (ch.getBalance payer : ℚ) < solReserve
  · unfold Token.collectAllTokenAndCloseAccount
    rw [if_pos h2]
    exact ⟨by simp [countCreate], fun _ => by simp [countCreate], fun _ h => absurd rfl h⟩
  unfold Token.collectAllTokenAndCloseAccount
  rw [if_neg h2]
  have hno : ∀ g ∈ (group (Token.collectAllTokenPlan ch ataOf mint sources
      (ataOf mint target)) (5 : ℤ)).getD [],
      ∀ ins ∈ g.filterMap AllRec.instruction ++ g.map AllRec.closeInstruction,
        ins.isCreate = false := by
    intro g hg ins hins
    have hflat := groupD_flatten
      (Token.collectAllTokenPlan ch ataOf mint sources (ataOf mint target)) 5 (by norm_num)
    rw [show ((5 : ℕ) : ℤ) = (5 : ℤ) by norm_num] at hflat
    have hmem_plan : ∀ r ∈ g,
        r ∈ Token.collectAllTokenPlan ch ataOf mint sources (ataOf mint target) := by
      intro r hr
      rw [← hflat]
      exact List.mem_flatten.mpr ⟨g, hg, hr⟩
    rcases List.mem_append.mp hins with hf | hm
    · obtain ⟨r, hr, hri⟩ := List.mem_filterMap.mp hf
      have hrp := hmem_plan r hr
      rw [Token.collectAllTokenPlan_eq] at hrp
      obtain ⟨sa, _, hsa⟩ := List.mem_filterMap.mp hrp
      exact (Token.planAllOne_no_create ch (ataOf mint target) sa r hsa).1 ins hri
    · obtain ⟨r, hr, hri⟩ := List.mem_map.mp hm
      have hrp := hmem_plan r hr
      rw [Token.collectAllTokenPlan_eq] at hrp
      obtain ⟨sa, _, hsa⟩ := List.mem_filterMap.mp hrp
      rw [← hri]
      exact (Token.planAllOne_no_create ch (ataOf mint target) sa r hsa).2
  by_cases habs : ch.parsedToken (ataOf mint target) = none
  · rw [if_pos habs]
    cases hbs : (group (Token.collectAllTokenPlan ch ataOf mint sources
        (ataOf mint target)) (5 : ℤ)).getD [] with
    | nil =>
      exact ⟨by simp [countCreate, runAtaLoop], fun hne => absurd habs hne,
        fun _ h => absurd rfl h⟩
    | cons g rest =>
      rw [runAtaLoop_cons_pending]
      have htx : txHasCreate ⟨Instr.createAta payer (ataOf mint target) target mint ::
          (fun g => g.filterMap AllRec.instruction ++ g.map AllRec.closeInstruction) g,
          (fun g => payer :: g.map AllRec.signers) g, ch.submit 0⟩ = true := by
        simp [txHasCreate, Instr.isCreate]
      have hrest0 : countCreate (runCaughtLoop ch.submit
          (fun g => g.filterMap AllRec.instruction ++ g.map AllRec.closeInstruction)
          (fun g => payer :: g.map AllRec.signers) (0 + 1) rest) = 0 := by
        apply runCaughtLoop_countCreate_zero
        intro g' hg' ins hins
        exact hno g' (by rw [hbs]; exact List.mem_cons_of_mem _ hg') ins hins
      refine ⟨?_, fun hne => absurd habs hne, fun _ _ => ⟨_, _, rfl, htx, hrest0⟩⟩
      rw [countCreate_cons, htx, hrest0]
      simp
  · rw [if_neg habs, runAtaLoop_nil_pending]
    have h0 : countCreate (runCaughtLoop ch.submit
        (fun g => g.filterMap AllRec.instruction ++ g.map AllRec.closeInstruction)
        (fun g => payer :: g.map AllRec.signers) 0
        ((group (Token.collectAllTokenPlan ch ataOf mint sources (ataOf mint target))
          (5 : ℤ)).getD [])) = 0 := runCaughtLoop_countCreate_zero _ _ _ _ hno 0
    exact ⟨by rw [h0]; omega, fun _ => h0, fun habs' => absurd habs' habs⟩

theorem solReserve_eq : solReserve = 1000000 := by decide

theorem jsPow10_num_eq (d : ℕ) (hd : d ≤ 22) : (jsPow10 d).num = 10 ^ d := by
  have h : ∀ d', d' < 23 → (jsPow10 d').num = 10 ^ d' := by decide
  exact h d (by omega)

/-! ## Claims -/

/-- C6: for every array `S` and every positive chunk size, the sub-arrays
returned by `group(S, size)` concatenate in order back to `S` exactly, every
returned sub-array except possibly the last has length exactly `size`, and
every returned sub-array is non-empty of length at most `size`. -/
theorem C6_group_chunks {α : Type} (data : List α) (size : ℕ) (hs : 0 < size) :
    ∃ out, group data (size : ℤ) = some out ∧ out.flatten = data ∧
      (∀ c ∈ out.dropLast, c.length = size) ∧
      (∀ c ∈ out, 1 ≤ c.length ∧ c.length ≤ size) := by
  obtain ⟨out, heq, hjoin, hmem, hlast⟩ := group_spec data size hs
  exact ⟨out, heq, hjoin, hlast,
    fun c hc => ⟨List.length_pos.mpr (hmem c hc).1, (hmem c hc).2⟩⟩

/-- C6 witness: the theorem applied to `[1,2,3,4,5]` with chunk size 2. -/
theorem C6_group_chunks_witness :
    0 < 2 ∧ (∃ out, group [1, 2, 3, 4, 5] ((2 : ℕ) : ℤ) = some out ∧
      out.flatten = [1, 2, 3, 4, 5] ∧ (∀ c ∈ out.dropLast, c.length = 2) ∧
      (∀ c ∈ out, 1 ≤ c.length ∧ c.length ≤ 2)) :=
  ⟨by decide, C6_group_chunks [1, 2, 3, 4, 5] 2 (by decide)⟩

/-- C7 counterexample: `group([0], 0)` does not report an error — its loop
never exits, at any fuel, so nothing is ever returned or thrown for the
non-positive size 0 on a non-empty array. -/
theorem C7_group_counterexample : groupDiverges [(0 : ℕ)] 0 := fun fuel =>
  groupLoop_none [(0 : ℕ)] 0 le_rfl (by simp) fuel 0 le_rfl []

/-- C7 amended: `group` contains no size check and reports no error.  For
`size ≤ 0` on a non-empty array its loop never terminates; on the empty
array it returns the empty chunk list for every size; and for every positive
size it terminates normally. -/
theorem C7_group_nonpositive_size {α : Type} :
    (∀ (data : List α) (size : ℤ), size ≤ 0 → data ≠ [] → groupDiverges data size) ∧
    (∀ size : ℤ, size ≤ 0 → group ([] : List α) size = some []) ∧
    (∀ (data : List α) (size : ℕ), 0 < size → (group data (size : ℤ)).isSome = true) := by
  refine ⟨?_, ?_, ?_⟩
  · intro data size hsz hd fuel
    exact groupLoop_none data size hsz hd fuel 0 le_rfl []
  · intro size _
    exact group_nil_eq size
  · intro data size hs
    obtain ⟨out, heq, _, _, _⟩ := group_spec data size hs
    rw [heq]
    rfl

/-- C7 witness: the amended theorem applied to `[5]` with size `-2`, to `[]`
with size 0, and to `[1,2,3]` with size 2. -/
theorem C7_group_nonpositive_size_witness :
    groupDiverges [(5 : ℕ)] (-2) ∧ group ([] : List ℕ) 0 = some [] ∧
      (group [(1 : ℕ), 2, 3] ((2 : ℕ) : ℤ)).isSome = true :=
  ⟨(@C7_group_nonpositive_size ℕ).1 [5] (-2) (by decide) (by decide),
   (@C7_group_nonpositive_size ℕ).2.1 0 (by decide),
   (@C7_group_nonpositive_size ℕ).2.2 [1, 2, 3] 2 (by decide)⟩

set_option maxRecDepth 8000 in
/-- C1: evaluating `queryMultipleTokenBalance` (token module) at the failing
input — 51 addresses `0..50`, where address 0's token account holds UI
balance 7 and address 50's holds UI balance 9.  The output has one entry per
input, but its 51st entry carries address 0 (the chunk-local index applied to
the full input array) together with address 50's balance 9, so entries past
the 50-element chunk are not paired with their own addresses. -/
theorem C1_token_query_mispairs :
    (Token.queryMultipleTokenBalance chC1 fixAtaOf 3 (List.range 51)).length = 51 ∧
    (List.range 51).getD 50 99 = 50 ∧
    ((Token.queryMultipleTokenBalance chC1 fixAtaOf 3 (List.range 51)).getD 50
      ⟨99, none, 0⟩).address = 0 ∧
    ((Token.queryMultipleTokenBalance chC1 fixAtaOf 3 (List.range 51)).getD 50
      ⟨99, none, 0⟩).balance = some 9 ∧
    ((Token.queryMultipleTokenBalance chC1 fixAtaOf 3 (List.range 51)).getD 0
      ⟨99, none, 0⟩).balance = some 7 := by
  decide

/-- C8: `collectSOL` and `collectToken` abort with
`amount must be greater than 0` when the fixed amount is not positive, and —
once the amount check passes — with `payer balance is not enough` when the
fee payer's balance is below the reserve `0.001 * LAMPORTS_PER_SOL`
(exactly 10^6 lamports); in both cases the outcome list is empty: no batch is
attempted and no transaction submitted. -/
theorem C8_upfront_preconditions (ch : Chain) (ataOf : Addr → Addr → Addr)
    (mint payer target : Addr) (sources : List Addr) (amount : ℚ) :
    solReserve = 1000000 ∧
    (amount ≤ 0 →
      Sol.collectSOL ch payer sources amount
        = ([], some (.thrown "amount must be greater than 0")) ∧
      Token.collectToken ch ataOf mint payer sources target amount
        = ([], some (.thrown "amount must be greater than 0"))) ∧
    (0 < amount → (ch.getBalance payer : ℚ) < solReserve →
      Sol.collectSOL ch payer sources amount
        = ([], some (.thrown "payer balance is not enough")) ∧
      Token.collectToken ch ataOf mint payer sources target amount
        = ([], some (.thrown "payer balance is not enough"))) := by
  refine ⟨solReserve_eq, ?_, ?_⟩
  · intro hle
    constructor
    · unfold Sol.collectSOL
      rw [if_pos hle]
    · unfold Token.collectToken
      rw [if_pos hle]
  · intro hpos hbal
    constructor
    · unfold Sol.collectSOL
      rw [if_neg (not_le.mpr hpos), if_pos hbal]
    · unfold Token.collectToken
      rw [if_neg (not_le.mpr hpos), if_pos hbal]

/-- C8 witness: the theorem applied to a run with amount `-1` (fee payer 7)
and to a run with amount 1 whose fee payer 42 has no account (balance 0). -/
theorem C8_upfront_preconditions_witness :
    ((-1 : ℚ) ≤ 0 ∧
      Sol.collectSOL chW 7 [1] (-1)
        = ([], some (.thrown "amount must be greater than 0")) ∧
      Token.collectToken chW fixAtaOf 3 7 [1] 9 (-1)
        = ([], some (.thrown "amount must be greater than 0"))) ∧
    (0 < (1 : ℚ) ∧ (chW.getBalance 42 : ℚ) < solReserve ∧
      Sol.collectSOL chW 42 [1] 1
        = ([], some (.thrown "payer balance is not enough")) ∧
      Token.collectToken chW fixAtaOf 3 42 [1] 9 1
        = ([], some (.thrown "payer balance is not enough"))) := by
  refine ⟨⟨by decide, (C8_upfront_preconditions chW fixAtaOf 3 7 9 [1] (-1)).2.1
    (by decide)⟩, ⟨by decide, by decide, ?_⟩⟩
  have h := (C8_upfront_preconditions chW fixAtaOf 3 42 9 [1] 1).2.2
    (by decide) (by decide)
  exact ⟨h.1, h.2⟩

/-- C9: under the All policy, both planners (`getAllTokenTransferInstructions`
and the legacy `getTokenTransferInstructions` with `amount` undefined and
`closeAta` true) emit, for every existing source sub-account, a record with a
close instruction; the transfer instruction is absent when the raw balance is
0 and present for the full raw balance when it is positive. -/
theorem C9_all_policy (ch : Chain) (accounts : List (Addr × Addr)) (targetAta : Addr) :
    (Token.getAllTokenTransferInstructions ch accounts targetAta
      = accounts.filterMap (Token.planAllOne ch targetAta)) ∧
    (Legacy.getTokenTransferInstructions ch accounts targetAta none true
      = accounts.filterMap (Legacy.planTokenOne ch targetAta none true)) ∧
    (∀ sa tok, ch.parsedToken sa.2 = some tok →
      (tok.amount = 0 →
        Token.planAllOne ch targetAta sa
          = some ⟨none, sa.1, tok.uiAmount, .closeAccount sa.2 sa.1 sa.1⟩ ∧
        Legacy.planTokenOne ch targetAta none true sa
          = some ⟨none, some (.closeAccount sa.2 sa.1 sa.1), sa.1,
              jsDiv ((tok.amount : ℕ) : ℚ) (jsPow10 tok.decimals)⟩) ∧
      (0 < tok.amount →
        Token.planAllOne ch targetAta sa
          = some ⟨some (.tokenTransfer sa.2 targetAta sa.1 (((tok.amount : ℕ) : ℤ) : ℚ)),
              sa.1, tok.uiAmount, .closeAccount sa.2 sa.1 sa.1⟩ ∧
        Legacy.planTokenOne ch targetAta none true sa
          = some ⟨some (.tokenTransfer sa.2 targetAta sa.1 ((tok.amount : ℕ) : ℚ)),
              some (.closeAccount sa.2 sa.1 sa.1), sa.1,
              jsDiv ((tok.amount : ℕ) : ℚ) (jsPow10 tok.decimals)⟩)) := by
  refine ⟨Token.getAllTokenTransferInstructions_eq ch accounts targetAta,
    Legacy.getTokenTransferInstructions_eq ch accounts targetAta none true, ?_⟩
  intro sa tok hx
  constructor
  · intro h0
    constructor
    · simp [Token.planAllOne, hx, h0]
    · simp [Legacy.planTokenOne, hx, h0]
  · intro hpos
    have hposZ : 0 < ((tok.amount : ℕ) : ℤ) := by exact_mod_cast hpos
    constructor
    · simp [Token.planAllOne, hx, hposZ]
    · simp [Legacy.planTokenOne, hx, hpos]

/-- C9 witness: the theorem applied to two existing sub-accounts, one with
raw balance 0 (only a close instruction) and one with raw balance 500 (a
full-balance transfer and a close instruction). -/
theorem C9_all_policy_witness :
    Token.planAllOne chW0 99 (1, 1301)
      = some ⟨none, 1, some 0, .closeAccount 1301 1 1⟩ ∧
    Token.planAllOne chW0 99 (2, 1302)
      = some ⟨some (.tokenTransfer 1302 99 2 (((500 : ℕ) : ℤ) : ℚ)), 2, some 5,
          .closeAccount 1302 2 2⟩ ∧
    Legacy.planTokenOne chW0 99 none true (2, 1302)
      = some ⟨some (.tokenTransfer 1302 99 2 ((500 : ℕ) : ℚ)),
          some (.closeAccount 1302 2 2), 2, jsDiv ((500 : ℕ) : ℚ) (jsPow10 2)⟩ := by
  have h := (C9_all_policy chW0 [(1, 1301), (2, 1302)] 99).2.2
  refine ⟨((h (1, 1301) ⟨0, 2, some 0, 2039280⟩ (by decide)).1 (by decide)).1, ?_, ?_⟩
  · exact ((h (2, 1302) ⟨500, 2, some 5, 2039280⟩ (by decide)).2 (by decide)).1
  · exact ((h (2, 1302) ⟨500, 2, some 5, 2039280⟩ (by decide)).2 (by decide)).2

/-- C10: `collectToken` with a positive non-integral amount passes the
`amount must be greater than 0` check, but as soon as one probed source
passes the balance threshold, `BigInt(amount)` raises a `RangeError` during
planning and the whole run aborts before anything is submitted (empty outcome
list). -/
theorem C10_fractional_amount (ch : Chain) (ataOf : Addr → Addr → Addr)
    (mint payer target : Addr) (sources : List Addr) (amount : ℚ)
    (hpos : 0 < amount) (hfrac : amount.den ≠ 1)
    (hbal : ¬ ((ch.getBalance payer : ℚ) < solReserve))
    (hex : ∃ s ∈ sources, Token.qualifies ch amount (s, ataOf mint s)) :
    Token.collectToken ch ataOf mint payer sources target amount
      = ([], some .rangeError) := by
  unfold Token.collectToken
  rw [if_neg (not_le.mpr hpos), if_neg hbal,
    Token.collectTokenPlan_err ch ataOf mint sources (ataOf mint target) amount hfrac hex]

/-- C10 witness: the theorem applied to amount 1/2 with a source (address 1)
whose sub-account holds UI balance 5 ≥ 1/2 and a funded fee payer. -/
theorem C10_fractional_amount_witness :
    0 < mkRat 1 2 ∧ (mkRat 1 2).den ≠ 1 ∧
    Token.collectToken chW fixAtaOf 3 7 [1] 9 (mkRat 1 2)
      = ([], some .rangeError) :=
  ⟨by decide, by decide,
    C10_fractional_amount chW fixAtaOf 3 7 9 [1] (mkRat 1 2) (by decide) (by decide)
      (by decide) ⟨1, by decide, ⟨500, 2, some 5, 2039280⟩, by decide, by decide⟩⟩

/-- C5 counterexample: the legacy scaling `amount * (10 ** decimals)` is a
floating-point multiplication and rounds — at amount 10^15 + 1 and decimals 2
it yields 100000000000000096 instead of the exact 100000000000000100; and in
the BigInt call sites the factor `10 ** decimals` is itself inexact from
decimals = 23 on: `BigInt(1) * BigInt(10 ** 23)` is 99999999999999991611392,
not 10^23. -/
theorem C5_scaling_counterexample :
    Legacy.scale 1000000000000001 2 = ((100000000000000096 : ℕ) : ℚ) ∧
    (((1000000000000001 * 10 ^ 2 : ℕ) : ℚ)) = ((100000000000000100 : ℕ) : ℚ) ∧
    Token.fixedScaled 1 23 = .ok 99999999999999991611392 ∧
    (99999999999999991611392 : ℤ) ≠ 10 ^ 23 := by
  refine ⟨by decide, by decide, by decide, by decide⟩

/-- C5 amended: in the BigInt call sites (`getTokenTransferInstructions` of
the token module and `batchMintTo`) the product is BigInt-exact in the float
`10 ** decimals`, which equals `10^decimals` exactly for `decimals ≤ 22` —
so for integral amounts and `decimals ≤ 22` the scaled value is exactly
`amount × 10^decimals`; the legacy `collectToken` path instead performs the
scaling as a floating-point multiplication, which rounds (see the
counterexample). -/
theorem C5_scaling_exact_below_23 (amount : ℚ) (hden : amount.den = 1) (d : ℕ)
    (hd : d ≤ 22) :
    Token.fixedScaled amount d = .ok (amount.num * 10 ^ d) ∧
    Token.mintScaled d amount = .ok (10 ^ d * amount.num) := by
  have hnum : (jsPow10 d).num = 10 ^ d := jsPow10_num_eq d hd
  constructor
  · rw [Token.fixedScaled_ok amount hden d, hnum]
  · rw [Token.mintScaled_ok d amount hden, hnum]

/-- C5 witness: the amended theorem applied to amount 3 and decimals 2. -/
theorem C5_scaling_exact_below_23_witness :
    (3 : ℚ).den = 1 ∧ (2 : ℕ) ≤ 22 ∧
    Token.fixedScaled 3 2 = .ok ((3 : ℚ).num * 10 ^ 2) ∧
    Token.mintScaled 2 3 = .ok (10 ^ 2 * (3 : ℚ).num) := by
  refine ⟨by decide, by decide, ?_, ?_⟩
  · exact (C5_scaling_exact_below_23 3 (by decide) 2 (by decide)).1
  · exact (C5_scaling_exact_below_23 3 (by decide) 2 (by decide)).2

/-- C2 counterexample: at the legacy call site, an account with raw balance
500, decimals 2 and UI balance 5 is skipped under `Fixed(3)` even though its
balance 5 is at least 3 — the code compares the UI balance against the
account's own raw balance (5 < 500) — while the token module's call site
emits exactly one transfer of 3 × 10^2 = 300 base units for the same
account.  So a qualifying account produces no transfer at one call site, and
the two call sites do not apply the same scaling in the comparison. -/
theorem C2_fixed_policy_counterexample :
    (3 : ℚ) ≤ 5 ∧
    Legacy.getTokenTransferInstructions chC2 [(1, 10)] 99 (some 3) false = [] ∧
    Token.getTokenTransferInstructions chC2 [(1, 10)] 99 3
      = .ok [⟨.tokenTransfer 10 99 1 ((300 : ℤ) : ℚ), 1, 3⟩] := by
  decide

/-- C2 amended: in the token module's `getTokenTransferInstructions` (with an
integral amount) planning emits exactly one transfer record per account whose
UI balance is at least the amount — with value exactly
`amount × 10^decimals` for `decimals ≤ 22` — and silently skips accounts
below the threshold; both sides of that comparison are UI-scaled.  The legacy
call site instead compares the UI balance against the account's own raw
balance, so under a defined amount it skips every account whose UI balance is
below its raw balance, regardless of the requested amount. -/
theorem C2_fixed_policy (ch : Chain) (accounts : List (Addr × Addr))
    (targetAta : Addr) (amount : ℚ) (hden : amount.den = 1) :
    (Token.getTokenTransferInstructions ch accounts targetAta amount
      = .ok (accounts.filterMap (Token.planFixedOne ch targetAta amount))) ∧
    (∀ sa tok, ch.parsedToken sa.2 = some tok →
      ((tok.uiAmount.getD 0) < amount →
        Token.planFixedOne ch targetAta amount sa = none) ∧
      (¬ ((tok.uiAmount.getD 0) < amount) → tok.decimals ≤ 22 →
        Token.planFixedOne ch targetAta amount sa
          = some ⟨.tokenTransfer sa.2 targetAta sa.1
              ((amount.num * 10 ^ tok.decimals : ℤ) : ℚ), sa.1, amount⟩)) ∧
    (∀ (a : ℚ) sa tok, ch.parsedToken sa.2 = some tok →
      (tok.uiAmount.getD 0) < (tok.amount : ℚ) →
      Legacy.planTokenOne ch targetAta (some a) false sa = none) := by
  refine ⟨Token.getTokenTransferInstructions_eq_ok ch accounts targetAta amount hden,
    ?_, ?_⟩
  · intro sa tok hx
    constructor
    · intro hui
      simp [Token.planFixedOne, hx, hui]
    · intro hui hd
      have hfix : Token.fixedScaled amount tok.decimals
          = .ok (amount.num * 10 ^ tok.decimals) := by
        rw [Token.fixedScaled_ok amount hden tok.decimals,
          jsPow10_num_eq tok.decimals hd]
      simp [Token.planFixedOne, hx, hui, hfix]
  · intro a sa tok hx hlt
    simp [Legacy.planTokenOne, hx, hlt]

/-- C2 witness: the amended theorem applied to the fixture account
(raw 500, decimals 2, UI 5): amount 7 skips it, amount 3 emits exactly one
transfer of 300 base units, and the legacy comparison (5 < 500) drops it. -/
theorem C2_fixed_policy_witness :
    Token.planFixedOne chC2 99 7 (1, 10) = none ∧
    Token.planFixedOne chC2 99 3 (1, 10)
      = some ⟨.tokenTransfer 10 99 1 (((3 : ℚ).num * 10 ^ 2 : ℤ) : ℚ), 1, 3⟩ ∧
    Legacy.planTokenOne chC2 99 (some 3) false (1, 10) = none := by
  refine ⟨?_, ?_, ?_⟩
  · exact ((C2_fixed_policy chC2 [(1, 10)] 99 7 (by decide)).2.1 (1, 10)
      ⟨500, 2, some 5, 11⟩ (by decide)).1 (by decide)
  · exact ((C2_fixed_policy chC2 [(1, 10)] 99 3 (by decide)).2.1 (1, 10)
      ⟨500, 2, some 5, 11⟩ (by decide)).2 (by decide) (by decide)
  · exact (C2_fixed_policy chC2 [(1, 10)] 99 3 (by decide)).2.2 3 (1, 10)
      ⟨500, 2, some 5, 11⟩ (by decide) (by decide)

theorem runCaughtLoop_spec {α : Type} (submit : ℕ → Except JsError ℕ)
    (build : α → List Instr) (signersOf : α → List Addr) (gs : List α) :
    (runCaughtLoop submit build signersOf 0 gs).map BatchOutcome.result
      = (List.range (runCaughtLoop submit build signersOf 0 gs).length).map submit := by
  rw [runCaughtLoop_map_result, runCaughtLoop_length]
  simp

theorem runAtaLoop_spec {α : Type} (submit : ℕ → Except JsError ℕ)
    (build : α → List Instr) (signersOf : α → List Addr)
    (pending : List Instr) (gs : List α) :
    (runAtaLoop submit build signersOf 0 pending gs).map BatchOutcome.result
      = (List.range (runAtaLoop submit build signersOf 0 pending gs).length).map submit := by
  rw [runAtaLoop_map_result, runAtaLoop_length]
  simp

/-- C3 counterexample: the legacy `collect` has no `try/catch` around its
batch loop.  With 41 funded sources the plan forms 3 batches; the submission
of batch 2 of 3 fails, the error propagates out of the call, and only
batch 1 reports a result — batch 3 never executes. -/
theorem C3_batch_failure_counterexample :
    (Legacy.collectBatches chC3 100 (List.range 41) none).length = 3 ∧
    (Legacy.collect chC3 100 (List.range 41) none).2 = some (.thrown "boom") ∧
    (Legacy.collect chC3 100 (List.range 41) none).1.length = 1 := by
  decide

/-- C3 amended: the modern batch-executing entry points (`allocationSOL`,
`collectSOL`, `collectAllSOL`, `collectToken`,
`collectAllTokenAndCloseAccount`, `batchMintTo`) wrap each submission in
`try/catch`: once their preconditions pass, every batch yields an outcome
carrying its own submission result (the k-th batch the k-th submission), and
the call itself raises nothing.  The legacy `collect` does not: it completes
without raising exactly when every submission up to its batch count succeeds,
and when a submission fails the run stops early, reporting strictly fewer
outcomes than batches. -/
theorem C3_batch_failure_policy (ch : Chain) (ataOf : Addr → Addr → Addr)
    (payer mint : Addr) (targets sources : List Addr) (target : Addr)
    (amountA amountS amountT amountM : ℚ) (amountL : Option ℚ)
    (hA : ¬ (ch.getBalance payer = 0 ∨
      (ch.getBalance payer : ℚ)
        < jsMul (jsMul amountA (targets.length : ℚ)) LAMPORTS_PER_SOL))
    (hS : ¬ amountS ≤ 0)
    (hB : ¬ (ch.getBalance payer : ℚ) < solReserve)
    (hT : ¬ amountT ≤ 0) (hTden : amountT.den = 1)
    (hMint : ∃ info, ch.account mint = some info ∧ info.owner = TOKEN_PROGRAM_ID)
    (hAuth : (ch.mintData mint).mintAuthority = some payer)
    (hMden : amountM.den = 1)
    (hL : ¬ (amountL.elim false (fun a => decide (a ≤ 0)) = true)) :
    ((Sol.allocationSOL ch payer targets amountA).2 = none ∧
      (Sol.allocationSOL ch payer targets amountA).1.map BatchOutcome.result
        = (List.range (Sol.allocationSOL ch payer targets amountA).1.length).map
            ch.submit) ∧
    ((Sol.collectSOL ch payer sources amountS).2 = none ∧
      (Sol.collectSOL ch payer sources amountS).1.map BatchOutcome.result
        = (List.range (Sol.collectSOL ch payer sources amountS).1.length).map
            ch.submit) ∧
    ((Sol.collectAllSOL ch payer sources).2 = none ∧
      (Sol.collectAllSOL ch payer sources).1.map BatchOutcome.result
        = (List.range (Sol.collectAllSOL ch payer sources).1.length).map ch.submit) ∧
    ((Token.collectToken ch ataOf mint payer sources target amountT).2 = none ∧
      (Token.collectToken ch ataOf mint payer sources target amountT).1.map
          BatchOutcome.result
        = (List.range
            (Token.collectToken ch ataOf mint payer sources target amountT).1.length).map
            ch.submit) ∧
    ((Token.collectAllTokenAndCloseAccount ch ataOf mint payer sources target).2
        = none ∧
      (Token.collectAllTokenAndCloseAccount ch ataOf mint payer sources target).1.map
          BatchOutcome.result
        = (List.range
            (Token.collectAllTokenAndCloseAccount ch ataOf mint payer sources
              target).1.length).map ch.submit) ∧
    ((Token.batchMintTo ch ataOf payer mint targets amountM).2 = none ∧
      (Token.batchMintTo ch ataOf payer mint targets amountM).1.map
          BatchOutcome.result
        = (List.range
            (Token.batchMintTo ch ataOf payer mint targets amountM).1.length).map
            ch.submit) ∧
    (((Legacy.collect ch payer sources amountL).2 = none ↔
        ∀ i < (Legacy.collectBatches ch payer sources amountL).length,
          ∃ t, ch.submit i = .ok t) ∧
      ((Legacy.collect ch payer sources amountL).2.isSome = true →
        (Legacy.collect ch payer sources amountL).1.length
          < (Legacy.collectBatches ch payer sources amountL).length)) := by
  refine ⟨?_, ?_, ?_, ?_, ?_, ?_, ?_⟩
  · rw [Sol.allocationSOL, if_neg hA]
    exact ⟨rfl, runCaughtLoop_spec ch.submit _ _ _⟩
  · rw [Sol.collectSOL, if_neg hS, if_neg hB]
    exact ⟨rfl, runCaughtLoop_spec ch.submit _ _ _⟩
  · rw [Sol.collectAllSOL, if_neg hB]
    exact ⟨rfl, runCaughtLoop_spec ch.submit _ _ _⟩
  · rw [Token.collectToken, if_neg hT, if_neg hB]
    simp only [Token.collectTokenPlan_ok ch ataOf mint sources (ataOf mint target)
      amountT hTden]
    exact ⟨trivial, runAtaLoop_spec ch.submit _ _ _ _⟩
  · rw [Token.collectAllTokenAndCloseAccount, if_neg hB]
    exact ⟨rfl, runAtaLoop_spec ch.submit _ _ _ _⟩
  · obtain ⟨info, hinfo, howner⟩ := hMint
    rw [Token.batchMintTo]
    simp only [hinfo]
    rw [if_neg (by rw [howner]; decide), if_neg (fun h => h howner),
      if_neg (fun h => h hAuth)]
    obtain ⟨h2, hmap⟩ := Token.batchMintToLoop_den_one ch payer mint
      (ch.mintData mint).decimals amountM hMden
      ((group (Token.getMultipleAtaInfo ch ataOf mint targets) 5).getD []) 0
    refine ⟨h2, ?_⟩
    have hlen : (Token.batchMintToLoop ch payer mint (ch.mintData mint).decimals
        amountM 0 ((group (Token.getMultipleAtaInfo ch ataOf mint targets) 5).getD
          [])).1.length
        = ((group (Token.getMultipleAtaInfo ch ataOf mint targets) 5).getD
          []).length := by
      have := congrArg List.length hmap
      simpa using this
    rw [hlen, hmap]
    simp
  · have hcol : Legacy.collect ch payer sources amountL
        = runUncaughtLoop ch.submit (fun g => g.map InstrRec.instruction)
          (fun g => payer :: g.map InstrRec.signers) 0
          (Legacy.collectBatches ch payer sources amountL) := by
      rw [Legacy.collect, if_neg hL, if_neg hB]
    refine ⟨?_, ?_⟩
    · rw [hcol, runUncaughtLoop_none_iff]
      simp only [Nat.zero_add]
    · intro hsome
      rw [hcol] at hsome ⊢
      exact runUncaughtLoop_some_length ch.submit _ _ _ 0 hsome

/-- C3 witness: on the witness chain (all submissions succeed, every
precondition satisfiable) each modern entry point finishes with no raised
error, and the legacy `collect` finishes without raising exactly because each
of its submissions succeeds. -/
theorem C3_batch_failure_policy_witness :
    (Sol.allocationSOL chW 7 [2] 1).2 = none ∧
    (Sol.collectSOL chW 7 [1] 1).2 = none ∧
    (Sol.collectAllSOL chW 7 [1]).2 = none ∧
    (Token.collectToken chW fixAtaOf 3 7 [1] 9 3).2 = none ∧
    (Token.collectAllTokenAndCloseAccount chW fixAtaOf 3 7 [1] 9).2 = none ∧
    (Token.batchMintTo chW fixAtaOf 7 3 [2] 4).2 = none ∧
    ((Legacy.collect chW 7 [1] none).2 = none ↔
      ∀ i < (Legacy.collectBatches chW 7 [1] none).length,
        ∃ t, chW.submit i = .ok t) := by
  obtain ⟨h1, h2, h3, h4, h5, h6, h7⟩ :=
    C3_batch_failure_policy chW fixAtaOf 7 3 [2] [1] 9 1 1 3 4 none
      (by decide) (by decide) (by decide) (by decide) (by decide)
      ⟨⟨1461600, TOKEN_PROGRAM_ID⟩, by decide, by decide⟩ (by decide) (by decide)
      (by decide)
  exact ⟨h1.1, h2.1, h3.1, h4.1, h5.1, h6.1, h7.1⟩

/-- C4 counterexample: a run of `collectToken` whose destination sub-account
is absent at probe time but whose plan is empty (no sources) submits no
transaction at all, so the create-destination instruction is added to zero
transactions — contradicting "never zero times" for every run with an absent
destination. -/
theorem C4_create_destination_counterexample :
    chW.parsedToken (fixAtaOf 3 9) = none ∧
    Token.collectToken chW fixAtaOf 3 7 [] 9 1 = ([], none) ∧
    countCreate (Token.collectToken chW fixAtaOf 3 7 [] 9 1).1 = 0 := by
  decide

/-- C4 amended: in every run of `collectToken` and
`collectAllTokenAndCloseAccount`, the create-destination-ATA instruction
appears in at most one transaction; in none when the destination sub-account
exists at probe time; and when it is absent and at least one transaction is
submitted, in exactly one — the first transaction — and in none of the
others.  (With an empty plan no transaction exists, so an absent destination
can yield zero occurrences; see the counterexample.) -/
theorem C4_create_destination_once (ch : Chain) (ataOf : Addr → Addr → Addr)
    (mint payer target : Addr) (sources : List Addr) (amount : ℚ) :
    (countCreate (Token.collectToken ch ataOf mint payer sources target amount).1 ≤ 1 ∧
      countCreate
        (Token.collectAllTokenAndCloseAccount ch ataOf mint payer sources target).1 ≤ 1) ∧
    (ch.parsedToken (ataOf mint target) ≠ none →
      countCreate (Token.collectToken ch ataOf mint payer sources target amount).1 = 0 ∧
      countCreate
        (Token.collectAllTokenAndCloseAccount ch ataOf mint payer sources target).1 = 0) ∧
    (ch.parsedToken (ataOf mint target) = none →
      ((Token.collectToken ch ataOf mint payer sources target amount).1 ≠ [] →
        ∃ o outs, (Token.collectToken ch ataOf mint payer sources target amount).1
            = o :: outs ∧ txHasCreate o = true ∧ countCreate outs = 0) ∧
      ((Token.collectAllTokenAndCloseAccount ch ataOf mint payer sources target).1 ≠ [] →
        ∃ o outs,
          (Token.collectAllTokenAndCloseAccount ch ataOf mint payer sources target).1
            = o :: outs ∧ txHasCreate o = true ∧ countCreate outs = 0)) := by
  obtain ⟨a1, a2, a3⟩ :=
    Token.collectToken_create_cases ch ataOf mint payer target sources amount
  obtain ⟨b1, b2, b3⟩ :=
    Token.collectAllToken_create_cases ch ataOf mint payer target sources
  exact ⟨⟨a1, b1⟩, fun h => ⟨a2 h, b2 h⟩, fun h => ⟨a3 h, b3 h⟩⟩

/-- C4 witness: with destination 9 absent and one qualifying source, the
single submitted transaction of `collectToken` carries the create
instruction; with destination 1 (whose ATA 1301 exists) no transaction
carries it. -/
theorem C4_create_destination_once_witness :
    chW.parsedToken (fixAtaOf 3 9) = none ∧
    (Token.collectToken chW fixAtaOf 3 7 [1] 9 3).1 ≠ [] ∧
    (∃ o outs, (Token.collectToken chW fixAtaOf 3 7 [1] 9 3).1 = o :: outs ∧
      txHasCreate o = true ∧ countCreate outs = 0) ∧
    chW.parsedToken (fixAtaOf 3 1) ≠ none ∧
    countCreate (Token.collectToken chW fixAtaOf 3 7 [1] 1 3).1 = 0 := by
  refine ⟨by decide, by decide, ?_, by decide, ?_⟩
  · exact ((C4_create_destination_once chW fixAtaOf 3 7 9 [1] 3).2.2 (by decide)).1
      (by decide)
  · exact ((C4_create_destination_once chW fixAtaOf 3 7 1 [1] 3).2.1 (by decide)).1

end SolanaTools
